import Mathlib

/-!
Verification of the Twitter agent's content-formatting subsystem.

This file gives a shallow embedding, in Lean 4, of the pure string-processing
code of the repository:

* `DroneAgent/agent/writer.py`   — `DroneContentWriter.optimize_tweet_length`
* `DroneAgent/agent/ideator.py`  — `ContentDeduplicator` and
  `ContentIdeator.clear_content_history`
* `DroneAgent/utils/thread_builder.py` — `ThreadBuilder.split_content`,
  `add_hashtags_to_thread`, `validate_thread`, `_calculate_similarity`,
  `analyze_engagement_potential` and their helpers,

and proves or refutes the specification's claims about them.

Modelling conventions:

* Python strings are modelled as `List Char` (`Str`); Python `len` is
  `List.length` (both count Unicode code points).
* Python regular expressions that the code uses (`#\w+`, `[.!?]+`, `'. '`,
  whitespace split, the numeric-pattern alternations, emoji character
  classes…) are implemented as explicit left-to-right scanners with the
  same leftmost, non-overlapping match semantics; `\w` is modelled as
  `Char.isAlphanum || c = '_'` (the ASCII behaviour of Python's `\w`).
* Python `set` objects are modelled as `Finset`.
* Python float similarity scores are modelled as `ℚ`; every comparison the
  code performs on them (`> 0.7`, `< threshold`) involves ratios of small
  integers, far outside the rounding error of IEEE doubles, so the
  rational model agrees with the float computation on all inputs considered.
* Python exceptions (`IndexError`, `ZeroDivisionError`, `AttributeError`)
  are modelled with `Except PyErr`.
* All recursive definitions are structurally recursive so that concrete
  inputs evaluate by `decide` / `rfl`.
-/

set_option maxRecDepth 8000

namespace TwitterAgent

/-- Python strings, modelled as lists of Unicode code points. -/
abbrev Str := List Char

/-- Python's `str.isspace`-style whitespace, as used by `strip` / `split`. -/
def isWS (c : Char) : Bool := c.isWhitespace

/-- Python's regex `\w` word character (ASCII behaviour): letters, digits, `_`. -/
def isWordChar (c : Char) : Bool := c.isAlphanum || c = '_'

/-- Left strip: drop leading whitespace. -/
def lstrip (s : Str) : Str := s.dropWhile isWS

/-- Right strip: drop trailing whitespace. -/
def rstrip (s : Str) : Str := (s.reverse.dropWhile isWS).reverse

/-- Python `str.strip()`. -/
def strip (s : Str) : Str := lstrip (rstrip s)

/-- Python lowercasing (`str.lower`), per code point. -/
def lowerS (s : Str) : Str := s.map Char.toLower

/-- Does `s` start with `p`? (Python `str.startswith`.) -/
def startsWith : Str → Str → Bool
  | _, [] => true
  | [], _ :: _ => false
  | c :: cs, d :: ds => c = d && startsWith cs ds

/-- Does `hay` contain `needle` as a contiguous substring? (Python `in`.) -/
def containsSub (hay needle : Str) : Bool :=
  match hay with
  | [] => needle.isEmpty
  | _ :: rest => startsWith hay needle || containsSub rest needle

/-- Python `hay.replace(needle, "", 1)`: remove the leftmost occurrence of
`needle` (with an empty `needle` the string is returned unchanged, as in
Python, where an empty replacement string is inserted before the first
character). -/
def removeFirst (hay needle : Str) : Str :=
  match hay with
  | [] => []
  | c :: rest =>
    if needle.isEmpty then hay
    else if startsWith hay needle then hay.drop needle.length
    else c :: removeFirst rest needle

/-- Python slice `s[:n]` where `n` may be a negative int. -/
def pyTake (s : Str) (n : Int) : Str :=
  if 0 ≤ n then s.take n.toNat else s.take (s.length - (-n).toNat)

/-- Python `sep.join` for `sep = " "`. -/
def joinSpace : List Str → Str
  | [] => []
  | [t] => t
  | t :: ts => t ++ ' ' :: joinSpace ts

/-- Python `str.split('. ')`, leftmost non-overlapping separator matches. -/
def splitDotSpace : Str → List Str
  | [] => [[]]
  | '.' :: ' ' :: rest => [] :: splitDotSpace rest
  | c :: rest =>
    match splitDotSpace rest with
    | [] => [[c]]
    | p :: ps => (c :: p) :: ps

/-- Is the character one of `.`, `!`, `?` (the class `[.!?]`)? -/
def isSentencePunct (c : Char) : Bool := c = '.' || c = '!' || c = '?'

/-- Embedding of `re.split(r'[.!?]+', s)`: split on maximal runs of sentence punctuation.
The first argument is a skip counter used to consume a matched run while
keeping the recursion structural. -/
def splitPunctRunsAux : Nat → Str → List Str
  | _, [] => [[]]
  | k + 1, _ :: rest => splitPunctRunsAux k rest
  | 0, c :: rest =>
    if isSentencePunct c then
      [] :: splitPunctRunsAux (rest.takeWhile isSentencePunct).length rest
    else
      match splitPunctRunsAux 0 rest with
      | [] => [[c]]
      | p :: ps => (c :: p) :: ps

/-- Embedding of `re.split(r'[.!?]+', s)`. -/
def splitPunctRuns (s : Str) : List Str := splitPunctRunsAux 0 s

/-- Auxiliary for `pySplit`: split on maximal whitespace runs. -/
def splitWSAux : Nat → Str → List Str
  | _, [] => [[]]
  | k + 1, _ :: rest => splitWSAux k rest
  | 0, c :: rest =>
    if isWS c then
      [] :: splitWSAux (rest.takeWhile isWS).length rest
    else
      match splitWSAux 0 rest with
      | [] => [[c]]
      | p :: ps => (c :: p) :: ps

/-- Python `str.split()` with no argument: split on whitespace runs and
drop empty pieces. -/
def pySplit (s : Str) : List Str :=
  (splitWSAux 0 s).filter (fun p => !p.isEmpty)

/-- Scanner for `re.findall(r'#\w+', s)` / `re.finditer`: at a `#` the regex
takes the maximal following run of word characters (at least one), then
resumes after the match; positions inside a match are skipped via the
counter argument. -/
def findHashtagsAux : Nat → Str → List Str
  | _, [] => []
  | k + 1, _ :: rest => findHashtagsAux k rest
  | 0, c :: rest =>
    if c = '#' then
      match rest.takeWhile isWordChar with
      | [] => findHashtagsAux 0 rest
      | w => ('#' :: w) :: findHashtagsAux w.length rest
    else findHashtagsAux 0 rest

/-- Embedding of `re.findall(r'#\w+', s)`. -/
def findHashtags (s : Str) : List Str := findHashtagsAux 0 s

/-- Scanner for `re.sub(r'#\w+', '', s)`: every `#`-plus-word-run match is
deleted, everything else is kept. -/
def removeHashtagsAux : Nat → Str → Str
  | _, [] => []
  | k + 1, _ :: rest => removeHashtagsAux k rest
  | 0, c :: rest =>
    if c = '#' then
      match rest.takeWhile isWordChar with
      | [] => c :: removeHashtagsAux 0 rest
      | w => removeHashtagsAux w.length rest
    else c :: removeHashtagsAux 0 rest

/-- Embedding of `re.sub(r'#\w+', '', s)`. -/
def removeHashtags (s : Str) : Str := removeHashtagsAux 0 s

/-- Predicate `noTagB s` holds when `s` contains no occurrence of `#` immediately
followed by a word character, i.e. no match of `#\w+` (the invariant of a
string whose hashtags were removed). -/
def noTagB : Str → Bool
  | x :: y :: rest => !(x = '#' && isWordChar y) && noTagB (y :: rest)
  | _ => true

/-- Is the string a well-formed hashtag `#` followed by a nonempty run of
word characters (the shape of every `re.findall(r'#\w+', ·)` result)? -/
def isTagB : Str → Bool
  | c :: w => c = '#' && (!w.isEmpty && w.all isWordChar)
  | [] => false

/-! ## `agent/ideator.py` — `ContentDeduplicator` -/

/-- Python exceptions raised by the embedded code. -/
inductive PyErr
  | indexError
  | zeroDivisionError
  | attributeError (missing : String)
deriving DecidableEq, Repr

/-- The stop-word set of `ContentDeduplicator._extract_key_phrases`. -/
def stopWords : List Str :=
  [("the".toList), ("a".toList), ("an".toList), ("and".toList), ("or".toList),
   ("but".toList), ("in".toList), ("on".toList), ("at".toList), ("to".toList),
   ("for".toList), ("of".toList), ("with".toList), ("by".toList), ("is".toList),
   ("are".toList), ("was".toList), ("were".toList), ("be".toList), ("been".toList),
   ("being".toList), ("have".toList), ("has".toList), ("had".toList), ("do".toList),
   ("does".toList), ("did".toList), ("will".toList), ("would".toList), ("could".toList),
   ("should".toList), ("may".toList), ("might".toList), ("can".toList), ("this".toList),
   ("that".toList), ("these".toList), ("those".toList)]

/-- Embedding of `re.sub(r'[^\w\s]', ' ', s)`: replace every character that is neither a
word character nor whitespace by a space. -/
def sanitizeToWordSpace (s : Str) : Str :=
  s.map (fun c => if isWordChar c || isWS c then c else ' ')

/-- Is every word of the window a stop word (`all(word in stop_words for …)`)? -/
def allStop (ws : List Str) : Bool := ws.all (fun w => decide (w ∈ stopWords))

/-- The 2-word phrases of `_extract_key_phrases`: for each `i`,
`' '.join(words[i:i+2])`, kept when the window is not entirely stop words. -/
def phrases2 : List Str → List Str
  | w1 :: w2 :: rest =>
    (if allStop [w1, w2] then [] else [w1 ++ ' ' :: w2]) ++ phrases2 (w2 :: rest)
  | _ => []

/-- The 3-word phrases of `_extract_key_phrases`. -/
def phrases3 : List Str → List Str
  | w1 :: w2 :: w3 :: rest =>
    (if allStop [w1, w2, w3] then [] else [w1 ++ ' ' :: w2 ++ ' ' :: w3])
      ++ phrases3 (w2 :: w3 :: rest)
  | _ => []

/-- Embedding of `ContentDeduplicator._extract_key_phrases`: lowercase, replace
punctuation by spaces, tokenize, then collect the 2-word and 3-word
windows that are not made up entirely of stop words. -/
def extract_key_phrases (content : Str) : List Str :=
  let words := pySplit (sanitizeToWordSpace (lowerS content))
  phrases2 words ++ phrases3 words

/-- The MD5 digest of the normalised content, `md5(content.lower().strip())`.
MD5 is a fixed deterministic function of its input; the claims checked here
depend only on that determinism (identical inputs give identical keys), so
the digest is modelled by the normalised content itself. -/
def contentKey (content : Str) : Str := strip (lowerS content)

/-- The mutable state of a `ContentDeduplicator` instance: the three Python
sets created by `__init__`. -/
structure ContentDeduplicator where
  used_phrases : Finset Str
  used_topics : Finset Str
  content_hashes : Finset Str
deriving DecidableEq

/-- Embedding of `ContentDeduplicator.__init__`: all three sets start empty. -/
def ContentDeduplicator.init : ContentDeduplicator :=
  { used_phrases := ∅, used_topics := ∅, content_hashes := ∅ }

/-- Embedding of `ContentDeduplicator.add_used_content`: record the content hash, update
the used-phrase set with the extracted key phrases, and, for
`content_type == "topic"`, record the normalised topic. -/
def ContentDeduplicator.add_used_content (d : ContentDeduplicator)
    (content : Str) (content_type : Str) : ContentDeduplicator :=
  let content_hash := contentKey content
  let phrases := extract_key_phrases content
  { content_hashes := insert content_hash d.content_hashes,
    used_phrases := d.used_phrases ∪ phrases.toFinset,
    used_topics :=
      if content_type = ("topic".toList) then insert (strip (lowerS content)) d.used_topics
      else d.used_topics }

/-- Embedding of `ContentDeduplicator.is_content_unique`: reject on an exact hash match,
accept when no key phrase can be extracted, otherwise accept exactly when
the fraction of already-used key phrases is below the threshold. -/
def ContentDeduplicator.is_content_unique (d : ContentDeduplicator)
    (content : Str) (similarity_threshold : ℚ) : Bool :=
  let content_hash := contentKey content
  if content_hash ∈ d.content_hashes then false
  else
    let content_phrases := extract_key_phrases content
    if content_phrases.isEmpty then true
    else
      let overlap_count :=
        (content_phrases.filter (fun p => decide (p ∈ d.used_phrases))).length
      let similarity : ℚ := (overlap_count : ℚ) / (content_phrases.length : ℚ)
      decide (similarity < similarity_threshold)

/-- State-passing rendering of `is_content_unique`: each return path of the
method is paired with the instance state as it stands there.  The method
body reads `self.content_hashes` and `self.used_phrases` but contains no
assignment to any of the three sets. -/
def ContentDeduplicator.is_content_unique_run (d : ContentDeduplicator)
    (content : Str) (similarity_threshold : ℚ) : Bool × ContentDeduplicator :=
  let content_hash := contentKey content
  if content_hash ∈ d.content_hashes then (false, d)
  else
    let content_phrases := extract_key_phrases content
    if content_phrases.isEmpty then (true, d)
    else
      let overlap_count :=
        (content_phrases.filter (fun p => decide (p ∈ d.used_phrases))).length
      let similarity : ℚ := (overlap_count : ℚ) / (content_phrases.length : ℚ)
      (decide (similarity < similarity_threshold), d)

/-- Dynamic lookup of the attribute `clear_history` on `ContentDeduplicator`:
the class body (`agent/ideator.py`, lines 156–219) defines only `__init__`,
`add_used_content`, `is_content_unique` and `_extract_key_phrases`, so the
lookup finds nothing. -/
def ContentDeduplicator.clear_history_attr :
    Option (ContentDeduplicator → ContentDeduplicator) := none

/-- Embedding of `ContentIdeator.clear_content_history`: executes
`self.deduplicator.clear_history()`.  Python resolves the attribute at call
time; since `ContentDeduplicator` defines no `clear_history`, the call
raises `AttributeError` before touching any state. -/
def clear_content_history (d : ContentDeduplicator) :
    Except PyErr ContentDeduplicator :=
  match ContentDeduplicator.clear_history_attr with
  | some f => Except.ok (f d)
  | none => Except.error (PyErr.attributeError "clear_history")

/-! ## `agent/writer.py` — `DroneContentWriter.optimize_tweet_length` -/

/-- The greedy hashtag filter of `optimize_tweet_length`: iterate over the
first two found hashtags, keeping a tag when the total kept length stays
within 15 characters. -/
def filterTags (hashtags : List Str) : List Str :=
  (hashtags.take 2).foldl
    (fun filtered tag =>
      if (filtered.foldl (fun n t => n + t.length) 0) + tag.length ≤ 15 then
        filtered ++ [tag]
      else filtered)
    []

/-- Python `min(hashtags, key=len)`: the first element of minimal length. -/
def minByLen : List Str → Str
  | [] => []
  | [t] => t
  | t :: u :: rest =>
    let m := minByLen (u :: rest)
    if t.length ≤ m.length then t else m

/-- The hashtag-selection steps of `optimize_tweet_length`: find the
hashtags of the text, keep at most the first two subject to the
15-character budget, fall back to the single shortest found hashtag when
the filter keeps none, and default to `#Drone` when the text has no
hashtag at all. -/
def pickTags (text : Str) : List Str :=
  let hashtags := findHashtags text
  let hashtags :=
    if hashtags.isEmpty then hashtags
    else
      let filtered := filterTags hashtags
      if filtered.isEmpty then [minByLen hashtags] else filtered
  if hashtags.isEmpty then [("#Drone".toList)] else hashtags

/-- The sentence-accumulation loop of the trim stage: starting from
`sentences[0]`, greedily append `'. ' + sentence` while the total stays
within `available_space - 3`, stopping at the first failure. -/
def trimLoop (available_space : Int) (trimmed : Str) : List Str → Str
  | [] => trimmed
  | sentence :: rest =>
    if ((trimmed.length + 2 + sentence.length : Nat) : Int) ≤ available_space - 3 then
      trimLoop available_space (trimmed ++ '.' :: ' ' :: sentence) rest
    else trimmed

/-- The three filler sentences of `optimize_tweet_length`. -/
def fillers : List Str :=
  [(" Professional applications show measurable ROI.".toList),
   (" Technical specifications exceed industry standards.".toList),
   (" Implementation requires strategic planning approach.".toList)]

/-- The filler loop: append the first filler that keeps the combined
length within `max_length`, if any. -/
def addFiller (clean_text hashtag_text : Str) (max_length : Nat) :
    List Str → Str
  | [] => clean_text
  | f :: fs =>
    if clean_text.length + f.length + hashtag_text.length ≤ max_length then
      clean_text ++ f
    else addFiller clean_text hashtag_text max_length fs

/-- The "if too long, trim carefully" stage of `optimize_tweet_length`
(writer.py lines 274–289): when the content exceeds the available space,
accumulate whole sentences while they fit; if that trims below the
minimum, cut the original content at `available_space - 3` and append an
ellipsis.  `hlen` is `len(hashtag_text)`. -/
def trimStage (clean_text : Str) (min_length : Nat) (available_space : Int)
    (hlen : Nat) : Str :=
  if (clean_text.length : Int) > available_space then
    let sentences := splitDotSpace clean_text
    let trimmed := trimLoop available_space (sentences.headD []) sentences.tail
    if (trimmed.length : Int) < (min_length : Int) - (hlen : Int) then
      pyTake clean_text (available_space - 3) ++ ("...".toList)
    else trimmed
  else clean_text

/-- The "if too short, add relevant content" stage of
`optimize_tweet_length` (writer.py lines 291–303). -/
def fillStage (clean_text hashtag_text : Str) (min_length max_length : Nat) : Str :=
  if clean_text.length + hashtag_text.length < min_length then
    addFiller clean_text hashtag_text max_length fillers
  else clean_text

/-- Embedding of `DroneContentWriter.optimize_tweet_length` (writer.py lines 241–312):
separate hashtags from the text, keep a short hashtag suffix, trim at
sentence boundaries or cut with an ellipsis when the content is too long,
pad with a filler sentence when too short, and re-cut when the final
result still exceeds `max_length`. -/
def optimize_tweet_length (text : Str) (min_length : Nat := 260)
    (max_length : Nat := 280) : Str :=
  let hashtag_text : Str := ' ' :: joinSpace (pickTags text)
  let available_space : Int := (max_length : Int) - (hashtag_text.length : Int)
  let clean_text :=
    fillStage
      (trimStage (strip (removeHashtags text)) min_length available_space
        hashtag_text.length)
      hashtag_text min_length max_length
  let result := strip clean_text ++ hashtag_text
  if max_length < result.length then
    strip (pyTake clean_text (available_space - 3)) ++ ("...".toList) ++ hashtag_text
  else result

/-! ### C6 groundwork: invariants of hashtag-free, stripped strings

`optimize_tweet_length` always returns `c ++ ' ' :: joinSpace tags` where
`c` contains no `#\w+` match and no leading/trailing whitespace.  The
lemmas below establish how `noTagB` and the head/last whitespace
invariants behave under the string operations the optimizer uses. -/

/-- The first character, if any, is not a word character. -/
def headNonWord (s : Str) : Bool := s.head?.all (fun c => !isWordChar c)

/-- The first character, if any, is not whitespace. -/
def headNonWS (s : Str) : Bool := s.head?.all (fun c => !isWS c)

/-- The last character, if any, is not whitespace. -/
def lastNonWS (s : Str) : Bool := s.getLast?.all (fun c => !isWS c)

/-! ### C6 groundwork: the trim stage returns a prefix of its input -/

/-- The `'. '`-joined image of the later parts of a `split('. ')`. -/
def tailJoinDS : List Str → Str
  | [] => []
  | p :: ps => '.' :: ' ' :: (p ++ tailJoinDS ps)

/-! ### C6 groundwork: the hashtag selection is a retraction -/

/-- Total character count of a list of strings
(`sum(len(t) for t in l)`). -/
def sumLen : List Str → Nat
  | [] => 0
  | t :: ts => t.length + sumLen ts

/-! ## `utils/thread_builder.py` — `ThreadBuilder`

`__init__` sets `max_tweet_length = 280`, `hashtag_space = 25`,
`thread_numbering_space = 10`, so `effective_length = 245`.  The constant
280 is written inline below where the source reads
`self.max_tweet_length`. -/

/-- Embedding of `effective_length = max_tweet_length - hashtag_space - thread_numbering_space`. -/
def effective_length : Nat := 280 - 25 - 10

/-- The inner greedy loop of the priority-placement phase of
`add_hashtags_to_thread`: keep taking hashtags while
`len(' '.join(chosen + [tag])) + 2 <= available_space`, stopping at the
first failure. -/
def chooseTagsAux (available_space : Int) (acc : List Str) :
    List Str → List Str
  | [] => acc
  | tag :: rest =>
    if (((joinSpace (acc ++ [tag])).length + 2 : Nat) : Int) ≤ available_space then
      chooseTagsAux available_space (acc ++ [tag]) rest
    else acc

/-- The priority-placement loop of `add_hashtags_to_thread` over
`priority_tweets = [last, first]`: state is the tweet list and the number
of hashtags placed so far.  (`available_space = 280 - len(tweet)` and
`hashtags_to_place` from the source are written inline.) -/
def priorityPhase (hashtags : List Str) :
    List Nat → List Str × Nat → List Str × Nat
  | [], st => st
  | tweet_idx :: idxs, (tws, placed) =>
    if hashtags.length ≤ placed then (tws, placed)
    else if (chooseTagsAux ((280 : Int) - ((tws.getD tweet_idx []).length : Int))
        [] (hashtags.drop placed)).isEmpty then
      priorityPhase hashtags idxs (tws, placed)
    else
      priorityPhase hashtags idxs
        (tws.set tweet_idx
          ((tws.getD tweet_idx []) ++ ' ' ::
            joinSpace (chooseTagsAux
              ((280 : Int) - ((tws.getD tweet_idx []).length : Int))
              [] (hashtags.drop placed))),
         placed + (chooseTagsAux
            ((280 : Int) - ((tws.getD tweet_idx []).length : Int))
            [] (hashtags.drop placed)).length)

/-- The round-robin loop of `add_hashtags_to_thread` over the hashtags
left after the priority phase:
`tweet_idx = (i + 1) % (len(tagged_tweets) - 1)` (written inline),
appending ` #tag` when it fits.  When the thread has a single tweet the
modulus is zero and Python raises `ZeroDivisionError`. -/
def roundRobin : Nat → List Str → List Str → Except PyErr (List Str)
  | _, tws, [] => Except.ok tws
  | i, tws, tag :: rest =>
    if tws.length - 1 = 0 then Except.error PyErr.zeroDivisionError
    else if (tws.getD ((i + 1) % (tws.length - 1)) []).length + 1 +
        tag.length ≤ 280 then
      roundRobin (i + 1)
        (tws.set ((i + 1) % (tws.length - 1))
          ((tws.getD ((i + 1) % (tws.length - 1)) []) ++ ' ' :: tag)) rest
    else roundRobin (i + 1) tws rest

/-- Embedding of `ThreadBuilder.add_hashtags_to_thread` (thread_builder.py lines
293–340): with no hashtags, return the tweets unchanged; otherwise try to
append all hashtags to the last tweet, and failing that run the priority
placement on the last and first tweets followed by the round-robin
distribution of the remainder.  `tagged_tweets[-1]` on an empty list
raises `IndexError`. -/
def add_hashtags_to_thread (tweets hashtags : List Str) :
    Except PyErr (List Str) :=
  if hashtags.isEmpty then Except.ok tweets
  else
    match tweets.getLast? with
    | none => Except.error PyErr.indexError
    | some last_tweet =>
      if last_tweet.length + 2 + (joinSpace hashtags).length ≤ 280 then
        Except.ok (tweets.set (tweets.length - 1)
          (last_tweet ++ '\n' :: '\n' :: joinSpace hashtags))
      else
        roundRobin 0
          (priorityPhase hashtags [tweets.length - 1, 0] (tweets, 0)).1
          (hashtags.drop
            (priorityPhase hashtags [tweets.length - 1, 0] (tweets, 0)).2)

/-- Embedding of `ThreadBuilder._calculate_similarity` (lines 397–409): Jaccard index
of the lowercased word sets; `0.0` when either set is empty.  The Python
float ratio is modelled exactly in `ℚ` (both operands are small integers,
and every threshold comparison in the code is far from any rounding
boundary). -/
def _calculate_similarity (text1 text2 : Str) : ℚ :=
  let words1 := (pySplit (lowerS text1)).toFinset
  let words2 := (pySplit (lowerS text2)).toFinset
  if words1 = ∅ ∨ words2 = ∅ then 0
  else
    let intersection := (words1 ∩ words2).card
    let union := (words1 ∪ words2).card
    if 0 < union then (intersection : ℚ) / (union : ℚ) else 0

/-- The emoji character class
`[\U0001F600-\U0001F64F\U0001F300-\U0001F5FF\U0001F680-\U0001F6FF\U0001F1E0-\U0001F1FF]`
used by the engagement analyzer. -/
def isEmojiChar (c : Char) : Bool :=
  (0x1F600 ≤ c.toNat && c.toNat ≤ 0x1F64F) ||
  (0x1F300 ≤ c.toNat && c.toNat ≤ 0x1F5FF) ||
  (0x1F680 ≤ c.toNat && c.toNat ≤ 0x1F6FF) ||
  (0x1F1E0 ≤ c.toNat && c.toNat ≤ 0x1F1FF)

/-- Matcher for the pattern `\d+%|\$\d+|\d+x|\d+ years?` at one position,
alternatives tried in order (backtracking over `\d+` cannot succeed, so a
match needs the full digit run followed by the suffix). -/
def tryNumAt (s : Str) : Option Str :=
  let d := s.takeWhile Char.isDigit
  let after := s.drop d.length
  if !d.isEmpty && after.head? = some '%' then some (d ++ ['%'])
  else
    match s with
    | '$' :: rest =>
      let d2 := rest.takeWhile Char.isDigit
      if !d2.isEmpty then some ('$' :: d2) else none
    | _ =>
      if !d.isEmpty && after.head? = some 'x' then some (d ++ ['x'])
      else if !d.isEmpty && startsWith after (" year".toList) then
        if (after.drop 5).head? = some 's' then some (d ++ (" years".toList))
        else some (d ++ (" year".toList))
      else none

/-- Embedding of `re.findall(r'\d+%|\$\d+|\d+x|\d+ years?', s)`: leftmost,
non-overlapping scanning; the skip counter consumes a found match. -/
def findNumsAux : Nat → Str → List Str
  | _, [] => []
  | k + 1, _ :: rest => findNumsAux k rest
  | 0, c :: rest =>
    match tryNumAt (c :: rest) with
    | some m => m :: findNumsAux (m.length - 1) rest
    | none => findNumsAux 0 rest

def findNums (s : Str) : List Str := findNumsAux 0 s

/-- The engagement factors recorded by `analyze_engagement_potential`;
each constructor stands for the corresponding formatted `factors` entry. -/
inductive EngagementFactor
  | emojis (pts : Nat)
  | questions (pts : Nat)
  | strongHook
  | ctas (pts : Nat)
  | optimalThreadLength
  | longThread
  | hashtagCount (pts : Nat)
  | hashtagsMany
  | personalTouch
  | dataPoints (pts : Nat)
  | strongOpinions
deriving DecidableEq, Repr

/-- The recommendations of `_get_engagement_recommendations`; each
constructor stands for one appended message. -/
inductive Recommendation
  | lowEngagementRisk
  | addQuestions
  | includeCtas
  | addHashtags
  | addMoreEmojis
  | reduceEmojis
  | expandThread
  | condenseThread
  | addPersonalStories
  | includeNumbers
  | highPotential
  | moderatePotential
deriving DecidableEq, Repr

/-- The dict returned by `analyze_engagement_potential`. -/
structure EngagementReport where
  score : Nat
  max_score : Nat
  percentage : ℚ
  factors : List EngagementFactor
  recommendations : List Recommendation
deriving DecidableEq, Repr

/-- The CTA phrases scanned by the engagement analyzer. -/
def ctaPhrases : List Str :=
  [("retweet".toList), ("share".toList), ("comment".toList), ("thoughts".toList),
   ("agree".toList), ("disagree".toList), ("experience".toList), ("drop".toList),
   ("what do you think".toList)]

/-- The strong-opening hooks scanned in the first tweet. -/
def hookMarkers : List Str :=
  [("thread:".toList), ("breaking:".toList), ("shocking:".toList),
   ("nobody tells you".toList)]

/-- The personal-touch indicators of the analyzer. -/
def personalIndicators : List Str :=
  [("i".toList), ("my".toList), ("after years".toList),
   ("in my experience".toList), ("i learned".toList), ("i discovered".toList)]

/-- The controversy / strong-opinion markers of the analyzer. -/
def strongOpinionWords : List Str :=
  [("wrong".toList), ("myth".toList), ("mistake".toList), ("shocking".toList),
   ("surprising".toList), ("nobody tells you".toList)]

/-- Embedding of `ThreadBuilder._get_engagement_recommendations` (lines 615–654). -/
def _get_engagement_recommendations (tweets : List Str) (current_score : Nat) :
    List Recommendation :=
  let total_text := lowerS (joinSpace tweets)
  let emoji_count := (total_text.filter isEmojiChar).length
  (if current_score < 20 then [Recommendation.lowEngagementRisk] else []) ++
  (if !containsSub total_text ['?'] then [Recommendation.addQuestions] else []) ++
  (if !(([("share".toList), ("retweet".toList), ("thoughts".toList),
        ("drop".toList), ("comment".toList)] : List Str).any
        (fun w => containsSub total_text w)) then [Recommendation.includeCtas]
   else []) ++
  (if !containsSub total_text ['#'] then [Recommendation.addHashtags] else []) ++
  (if emoji_count < 3 then [Recommendation.addMoreEmojis]
   else if 10 < emoji_count then [Recommendation.reduceEmojis] else []) ++
  (if tweets.length < 3 then [Recommendation.expandThread]
   else if 10 < tweets.length then [Recommendation.condenseThread] else []) ++
  (if !(([("i".toList), ("my".toList), ("after".toList),
        ("experience".toList)] : List Str).any
        (fun w => containsSub total_text w)) then
      [Recommendation.addPersonalStories]
   else []) ++
  (if (findNums total_text).isEmpty then [Recommendation.includeNumbers]
   else []) ++
  (if 40 ≤ current_score then [Recommendation.highPotential]
   else if 25 ≤ current_score then [Recommendation.moderatePotential] else [])

/-- Embedding of `ThreadBuilder.analyze_engagement_potential` (lines 538–614): sums the
engagement score from emojis, questions, the opening hook (`tweets[0]`,
which raises `IndexError` on an empty list), CTA phrases, thread length,
hashtag count, personal touch, numeric data and strong opinions. -/
def analyze_engagement_potential (tweets : List Str) :
    Except PyErr EngagementReport :=
  let total_text := lowerS (joinSpace tweets)
  let emoji_count := (total_text.filter isEmojiChar).length
  let optimal_emojis := min emoji_count 8
  let emojiPart :=
    if 0 < emoji_count then (optimal_emojis * 2, [EngagementFactor.emojis (optimal_emojis * 2)])
    else (0, [])
  let question_count := total_text.count '?'
  let questionPart :=
    if 0 < question_count then
      (min (question_count * 4) 16, [EngagementFactor.questions (min (question_count * 4) 16)])
    else (0, [])
  match tweets with
  | [] => Except.error PyErr.indexError
  | t0 :: _ =>
    let first_tweet := lowerS t0
    let hookPart :=
      if hookMarkers.any (fun h => containsSub first_tweet h) then
        (8, [EngagementFactor.strongHook])
      else (0, [])
    let cta_count := (ctaPhrases.filter (fun p => containsSub total_text p)).length
    let ctaPart :=
      if 0 < cta_count then (cta_count * 3, [EngagementFactor.ctas (cta_count * 3)])
      else (0, [])
    let structurePart :=
      if 3 ≤ tweets.length ∧ tweets.length ≤ 8 then
        (6, [EngagementFactor.optimalThreadLength])
      else if 8 < tweets.length then (2, [EngagementFactor.longThread])
      else (0, [])
    let hashtag_count := total_text.count '#'
    let hashtagPart :=
      if 1 ≤ hashtag_count ∧ hashtag_count ≤ 5 then
        (hashtag_count * 2, [EngagementFactor.hashtagCount (hashtag_count * 2)])
      else if 5 < hashtag_count then (5, [EngagementFactor.hashtagsMany])
      else (0, [])
    let personalPart :=
      if personalIndicators.any (fun w => containsSub total_text w) then
        (4, [EngagementFactor.personalTouch])
      else (0, [])
    let numbers := findNums total_text
    let numbersPart :=
      if !numbers.isEmpty then
        (min (numbers.length * 2) 8, [EngagementFactor.dataPoints (min (numbers.length * 2) 8)])
      else (0, [])
    let opinionPart :=
      if strongOpinionWords.any (fun w => containsSub total_text w) then
        (5, [EngagementFactor.strongOpinions])
      else (0, [])
    let engagement_score :=
      emojiPart.1 + questionPart.1 + hookPart.1 + ctaPart.1 + structurePart.1 +
        hashtagPart.1 + personalPart.1 + numbersPart.1 + opinionPart.1
    Except.ok
      { score := engagement_score,
        max_score := 60,
        percentage := min (((engagement_score : ℚ) / 60) * 100) 100,
        factors := emojiPart.2 ++ questionPart.2 ++ hookPart.2 ++ ctaPart.2 ++
          structurePart.2 ++ hashtagPart.2 ++ personalPart.2 ++ numbersPart.2 ++
          opinionPart.2,
        recommendations := _get_engagement_recommendations tweets engagement_score }

/-- The per-tweet issues of `validate_thread`; each constructor stands for
one formatted `issues` entry (`i` is the 1-based tweet number). -/
inductive TweetIssue
  | exceedsLimit (i : Nat) (len : Nat)
  | tooShort (i : Nat) (len : Nat)
  | leadingTrailingWhitespace (i : Nat)
  | doubleSpaces (i : Nat)
deriving DecidableEq, Repr

/-- The per-tweet and thread-level warnings of `validate_thread`. -/
inductive TweetWarning
  | belowTarget (i : Nat) (len : Nat)
  | aboveTarget (i : Nat) (len : Nat)
  | similarToPrevious (i : Nat) (score : ℚ)
  | lacksDroneTerms (i : Nat)
  | lowEngagement
deriving DecidableEq, Repr

/-- The dict returned by `validate_thread`. -/
structure ValidationReport where
  valid : Bool
  issues : List TweetIssue
  warnings : List TweetWarning
  tweet_count : Nat
  total_characters : Nat
  average_length : ℚ
  tweets_in_range : Nat
  tweets_below_min : Nat
  engagement_score : Nat
deriving DecidableEq, Repr

/-- The drone-terminology keywords of the content-quality check. -/
def droneKeywords : List Str :=
  [("drone".toList), ("aerial".toList), ("uav".toList), ("quadcopter".toList),
   ("flight".toList), ("camera".toList), ("autonomous".toList)]

/-- One iteration of the `for i, tweet in enumerate(tweets, 1)` loop of
`validate_thread`: the length `if`/`elif` chain (`MIN_LENGTH = 240`,
`TARGET_MIN = 250`, `TARGET_MAX = 275`), the whitespace and double-space
checks, the similarity check against the preceding tweet (`i > 1`), and
the drone-terminology check. -/
def tweetChecks (i : Nat) (prev : Option Str) (tweet : Str) :
    List TweetIssue × List TweetWarning :=
  let tweet_length := tweet.length
  let lenIssue : List TweetIssue :=
    if 280 < tweet_length then [TweetIssue.exceedsLimit i tweet_length]
    else if tweet_length < 240 then [TweetIssue.tooShort i tweet_length]
    else []
  let lenWarn : List TweetWarning :=
    if 280 < tweet_length then []
    else if tweet_length < 240 then []
    else if tweet_length < 250 then [TweetWarning.belowTarget i tweet_length]
    else if 275 < tweet_length then [TweetWarning.aboveTarget i tweet_length]
    else []
  let wsIssue : List TweetIssue :=
    if strip tweet ≠ tweet then [TweetIssue.leadingTrailingWhitespace i] else []
  let dsIssue : List TweetIssue :=
    if containsSub tweet [' ', ' '] then [TweetIssue.doubleSpaces i] else []
  let simWarn : List TweetWarning :=
    match prev with
    | none => []
    | some p =>
      let similarity_score := _calculate_similarity tweet p
      if (7 : ℚ) / 10 < similarity_score then
        [TweetWarning.similarToPrevious i similarity_score]
      else []
  let droneWarn : List TweetWarning :=
    if !droneKeywords.any (fun k => containsSub (lowerS tweet) k) then
      [TweetWarning.lacksDroneTerms i]
    else []
  (lenIssue ++ wsIssue ++ dsIssue, lenWarn ++ simWarn ++ droneWarn)

/-- The whole validation loop; `prev` carries `tweets[i-2]`, which is
exactly the previously processed tweet. -/
def validateLoop : Nat → Option Str → List Str →
    List TweetIssue × List TweetWarning
  | _, _, [] => ([], [])
  | i, prev, t :: ts =>
    let r1 := tweetChecks i prev t
    let r2 := validateLoop (i + 1) (some t) ts
    (r1.1 ++ r2.1, r1.2 ++ r2.2)

/-- Embedding of `ThreadBuilder.validate_thread` (lines 342–395): per-tweet checks,
then the thread-level engagement warning, then the summary dict.  The
call `analyze_engagement_potential(tweets)['score']` raises on an empty
tweet list and the exception propagates. -/
def validate_thread (tweets : List Str) : Except PyErr ValidationReport :=
  let r := validateLoop 1 none tweets
  match analyze_engagement_potential tweets with
  | Except.error e => Except.error e
  | Except.ok rep =>
    let engagement_score := rep.score
    let warnings :=
      r.2 ++ (if engagement_score < 15 then [TweetWarning.lowEngagement] else [])
    Except.ok
      { valid := r.1.isEmpty,
        issues := r.1,
        warnings := warnings,
        tweet_count := tweets.length,
        total_characters := (tweets.map List.length).sum,
        average_length :=
          if tweets.isEmpty then 0
          else ((tweets.map List.length).sum : ℚ) / (tweets.length : ℚ),
        tweets_in_range :=
          (tweets.filter (fun t => 250 ≤ t.length && t.length ≤ 275)).length,
        tweets_below_min := (tweets.filter (fun t => t.length < 240)).length,
        engagement_score := engagement_score }

/-! ## `ThreadBuilder.split_content` and its helpers (lines 52–225) -/

/-- Embedding of `ThreadBuilder.transition_phrases`. -/
def transition_phrases : List Str :=
  [("But here's where it gets interesting...".toList),
   ("The real game-changer?".toList),
   ("This is just the beginning.".toList),
   ("Wait, there's more.".toList),
   ("The plot thickens:".toList),
   ("Here's the kicker:".toList),
   ("And then something unexpected happened:".toList),
   ("The results speak for themselves:".toList),
   ("But the story doesn't end there:".toList),
   ("This changes everything:".toList)]

/-- Embedding of `ThreadBuilder.power_words`. -/
def power_words : List Str :=
  [("breakthrough".toList), ("revolutionary".toList), ("game-changing".toList),
   ("unprecedented".toList), ("cutting-edge".toList), ("transformative".toList),
   ("disruptive".toList), ("innovative".toList), ("explosive".toList),
   ("dramatic".toList), ("stunning".toList), ("remarkable".toList)]

/-- Matcher at one position for the hook pattern
`\d+%|\$\d+[MBK]?|\d+x|\d+ years?|\d+ months?` (alternatives in order;
`[MBK]?` and `s?` are greedy). -/
def tryNumAtHook (s : Str) : Option Str :=
  let d := s.takeWhile Char.isDigit
  let after := s.drop d.length
  if !d.isEmpty && after.head? = some '%' then some (d ++ ['%'])
  else
    match s with
    | '$' :: rest =>
      let d2 := rest.takeWhile Char.isDigit
      if !d2.isEmpty then
        match (rest.drop d2.length).head? with
        | some 'M' => some ('$' :: d2 ++ ['M'])
        | some 'B' => some ('$' :: d2 ++ ['B'])
        | some 'K' => some ('$' :: d2 ++ ['K'])
        | _ => some ('$' :: d2)
      else none
    | _ =>
      if !d.isEmpty && after.head? = some 'x' then some (d ++ ['x'])
      else if !d.isEmpty && startsWith after (" year".toList) then
        if (after.drop 5).head? = some 's' then some (d ++ (" years".toList))
        else some (d ++ (" year".toList))
      else if !d.isEmpty && startsWith after (" month".toList) then
        if (after.drop 6).head? = some 's' then some (d ++ (" months".toList))
        else some (d ++ (" month".toList))
      else none

/-- Embedding of `re.findall` for the hook number pattern. -/
def findNumsHookAux : Nat → Str → List Str
  | _, [] => []
  | k + 1, _ :: rest => findNumsHookAux k rest
  | 0, c :: rest =>
    match tryNumAtHook (c :: rest) with
    | some m => m :: findNumsHookAux (m.length - 1) rest
    | none => findNumsHookAux 0 rest

def findNumsHook (s : Str) : List Str := findNumsHookAux 0 s

/-- Does the string end with `👇` (Python `str.endswith`)? -/
def endsWithDown (s : Str) : Bool := s.getLast? = some '👇'

/-- Embedding of `ThreadBuilder._create_hook_tweet` (lines 104–133): build an opening
hook from numbers and power words found in the first 200 characters, or
from the first sentence, then clamp it to the effective length and ensure
a `👇` ending. -/
def _create_hook_tweet (content : Str) : Str :=
  let first_part := content.take 200
  let numbers := findNumsHook first_part
  let strong_words := power_words.filter (fun w => containsSub (lowerS first_part) w)
  let hook :=
    match numbers, strong_words with
    | n0 :: _, w0 :: _ =>
      ("🧵 THREAD: The ".toList) ++ w0 ++ [' '] ++ n0 ++
        (" story that's reshaping drone ops.".toList)
    | n0 :: _, [] =>
      ("🧵 THREAD: ".toList) ++ n0 ++
        (" - the number that's changing everything in drone tech.".toList)
    | [], w0 :: _ =>
      ("🧵 THREAD: The ".toList) ++ w0 ++
        (" shift happening in drone operations right now.".toList)
    | [], [] =>
      ("🧵 THREAD: ".toList) ++
        ((strip ((splitPunctRuns content).headD [])).take 150) ++ ("...".toList)
  if effective_length - 5 < hook.length then
    hook.take (effective_length - 8) ++ ("... 👇".toList)
  else if !endsWithDown hook then hook ++ (" 👇".toList)
  else hook

/-- Positions `m.end()` of `re.finditer(r'[.!?]\s+', s)`: sentence
punctuation followed by a maximal nonempty whitespace run. -/
def sentenceEndsAux : Nat → Nat → Str → List Nat
  | _, _, [] => []
  | k + 1, pos, _ :: rest => sentenceEndsAux k (pos + 1) rest
  | 0, pos, c :: rest =>
    if isSentencePunct c ∧ ¬(rest.takeWhile isWS).isEmpty then
      (pos + 1 + (rest.takeWhile isWS).length) ::
        sentenceEndsAux (rest.takeWhile isWS).length (pos + 1) rest
    else sentenceEndsAux 0 (pos + 1) rest

/-- Index of the last `'\n'` of a string, if any. -/
def lastNewlineIdx : Str → Option Nat
  | [] => none
  | c :: rest =>
    match lastNewlineIdx rest with
    | some j => some (j + 1)
    | none => if c = '\n' then some 0 else none

/-- Positions `m.start()` of `re.finditer(r'\n\s*\n', s)`: a newline, then
the greedy `\s*` backtracks to the last newline inside the following
whitespace run. -/
def paraBreaksAux : Nat → Nat → Str → List Nat
  | _, _, [] => []
  | k + 1, pos, _ :: rest => paraBreaksAux k (pos + 1) rest
  | 0, pos, c :: rest =>
    if c = '\n' then
      match lastNewlineIdx (rest.takeWhile isWS) with
      | some j => pos :: paraBreaksAux (j + 1) (pos + 1) rest
      | none => paraBreaksAux 0 (pos + 1) rest
    else paraBreaksAux 0 (pos + 1) rest

/-- The clause keywords of the break-point pattern
`[,;]\s+(?:but|however|meanwhile|also|additionally)` (no two are
prefix-comparable, so try-in-order is exact). -/
def clauseWords : List Str :=
  [("but".toList), ("however".toList), ("meanwhile".toList), ("also".toList),
   ("additionally".toList)]

/-- The match length (from a `,`/`;`) of the clause pattern, if any:
a nonempty whitespace run followed by a clause keyword
(case-insensitive). -/
def tryClauseLen (rest : Str) : Option Nat :=
  if (rest.takeWhile isWS).isEmpty then none
  else
    match clauseWords.find? (fun w =>
      startsWith (lowerS (rest.drop (rest.takeWhile isWS).length)) w) with
    | some w => some ((rest.takeWhile isWS).length + w.length)
    | none => none

/-- Positions `m.end()` of the clause-break `finditer`. -/
def clauseBreaksAux : Nat → Nat → Str → List Nat
  | _, _, [] => []
  | k + 1, pos, _ :: rest => clauseBreaksAux k (pos + 1) rest
  | 0, pos, c :: rest =>
    if c = ',' || c = ';' then
      match tryClauseLen rest with
      | some len => (pos + 1 + len) :: clauseBreaksAux len (pos + 1) rest
      | none => clauseBreaksAux 0 (pos + 1) rest
    else clauseBreaksAux 0 (pos + 1) rest

/-- Is `x` strictly before `y` under the Python sort key
`(-priority, -pos)`? -/
def breakBefore (x y : Nat × Nat) : Bool :=
  y.2 < x.2 || (x.2 = y.2 && y.1 < x.1)

/-- Stable insertion preserving the original order of equal keys, as
Python's stable `list.sort`. -/
def insertStable (x : Nat × Nat) : List (Nat × Nat) → List (Nat × Nat)
  | [] => [x]
  | y :: ys => if breakBefore x y then x :: y :: ys else y :: insertStable x ys

def sortBreaks (l : List (Nat × Nat)) : List (Nat × Nat) :=
  l.foldl (fun acc x => insertStable x acc) []

/-- The first break position in `[effective_length - 50, effective_length]`. -/
def firstBreakInRange : List (Nat × Nat) → Option Nat
  | [] => none
  | (pos, _) :: rest =>
    if effective_length - 50 ≤ pos ∧ pos ≤ effective_length then some pos
    else firstBreakInRange rest

/-- The first sentence-end position within the effective length. -/
def firstSentenceEndLe : List (Nat × Nat) → Option Nat
  | [] => none
  | (pos, _) :: rest =>
    if pos ≤ effective_length then some pos else firstSentenceEndLe rest

/-- Embedding of `ThreadBuilder._find_best_break_point` (lines 135–161). -/
def _find_best_break_point (content : Str) : Nat :=
  let sentence_ends := (sentenceEndsAux 0 0 content).map (fun p => (p, 3))
  let para_breaks := (paraBreaksAux 0 0 content).map (fun p => (p, 4))
  let clause_breaks := (clauseBreaksAux 0 0 content).map (fun p => (p, 2))
  let all_breaks := sortBreaks (sentence_ends ++ para_breaks ++ clause_breaks)
  match firstBreakInRange all_breaks with
  | some pos => pos
  | none =>
    match firstSentenceEndLe sentence_ends with
    | some pos => pos
    | none => 0

/-- Embedding of `ThreadBuilder._add_transition_element` (lines 163–170); only called
with `tweet_index ≥ 1`, so the Python `tweet_index - 1` is the Nat
subtraction and `len(transition_phrases) > tweet_index - 1` holds. -/
def _add_transition_element (chunk : Str) (tweet_index : Nat) : Str :=
  if tweet_index < 3 ∧ tweet_index - 1 < transition_phrases.length then
    if (chunk.length + 1 +
        (transition_phrases.getD (min (tweet_index - 1)
          (transition_phrases.length - 1)) []).length) ≤ effective_length then
      (transition_phrases.getD (min (tweet_index - 1)
        (transition_phrases.length - 1)) []) ++ ' ' :: chunk
    else chunk
  else chunk

/-- Embedding of `ThreadBuilder._fallback_word_split` (lines 219–224): words of the
first `effective_length` characters, popped from the end while the join
stays too long. -/
def popWhileLong : Nat → List Str → List Str
  | 0, ws => ws
  | n + 1, ws =>
    if ¬ws.isEmpty ∧ effective_length < (joinSpace ws).length then
      popWhileLong n ws.dropLast
    else ws

def _fallback_word_split (content : Str) : Str :=
  joinSpace (popWhileLong (pySplit (content.take effective_length)).length
    (pySplit (content.take effective_length)))

/-- Embedding of `ThreadBuilder._get_next_chunk_enhanced` (lines 83–102). -/
def _get_next_chunk_enhanced (content : Str) (tweet_index : Nat) : Str :=
  if content.length ≤ effective_length then strip content
  else if tweet_index = 0 then _create_hook_tweet content
  else
    let best_break := _find_best_break_point (content.take (effective_length + 100))
    if 0 < best_break then
      let chunk := strip (content.take best_break)
      if 0 < tweet_index ∧ chunk.length < effective_length - 30 then
        _add_transition_element chunk tweet_index
      else chunk
    else _fallback_word_split content

/-- Embedding of `ThreadBuilder._remove_processed_content` (lines 172–189): strip the
chunk, drop the `🧵 THREAD:` prefix, the trailing `👇`, and a leading
transition phrase (all as in the anchored regex substitutions), then
remove the first occurrence of the result from the content (or slice off
its length), and strip. -/
def _remove_processed_content (content processed_chunk : Str) : Str :=
  let c1 := strip processed_chunk
  let c2 :=
    if startsWith c1 ("🧵 THREAD:".toList) then
      (c1.drop ("🧵 THREAD:".toList).length).dropWhile isWS
    else c1
  let c3 := strip
    (match c2.reverse with
     | '👇' :: r => r.reverse
     | '\n' :: '👇' :: r => ('\n' :: r).reverse
     | _ => c2)
  let clean_chunk :=
    match transition_phrases.find? (fun ph => startsWith (lowerS c3) (lowerS ph)) with
    | some ph => (c3.drop ph.length).dropWhile isWS
    | none => c3
  let remaining :=
    if containsSub content clean_chunk then removeFirst content clean_chunk
    else content.drop clean_chunk.length
  strip remaining

/-- The three conclusion-pattern alternation lists of
`_create_closing_tweet`. -/
def conclAlts1 : List Str :=
  [("in conclusion".toList), ("finally".toList), ("the result".toList),
   ("outcome".toList), ("impact".toList)]

def conclAlts2 : List Str :=
  [("this means".toList), ("therefore".toList), ("consequently".toList)]

def conclAlts3 : List Str :=
  [("ready to".toList), ("time to".toList), ("start".toList), ("begin".toList)]

/-- Try the alternation-plus-`.*?[.!?]` pattern at the current position:
for each alternative in order (case-insensitive), the lazy tail extends to
the first sentence punctuation at or after the end of the alternative
(DOTALL lets it cross newlines). -/
def tryConclAt (alts : List Str) (s : Str) : Option Str :=
  match alts with
  | [] => none
  | a :: as' =>
    if startsWith (lowerS s) a then
      match (s.drop a.length).findIdx? isSentencePunct with
      | some j => some (s.take (a.length + j + 1))
      | none => tryConclAt as' s
    else tryConclAt as' s

/-- Embedding of `re.search` of a conclusion pattern: leftmost position wins. -/
def searchConcl (alts : List Str) : Str → Option Str
  | [] => none
  | c :: rest =>
    match tryConclAt alts (c :: rest) with
    | some m => some m
    | none => searchConcl alts rest

/-- Embedding of `ThreadBuilder._create_closing_tweet` (lines 191–217). -/
def _create_closing_tweet (remaining_content : Str) : Str :=
  if remaining_content.length ≤ effective_length then strip remaining_content
  else
    match (match searchConcl conclAlts1 remaining_content with
           | some m => if m.length ≤ effective_length then some (strip m) else none
           | none => none) with
    | some r => r
    | none =>
      match (match searchConcl conclAlts2 remaining_content with
             | some m => if m.length ≤ effective_length then some (strip m) else none
             | none => none) with
      | some r => r
      | none =>
        match (match searchConcl conclAlts3 remaining_content with
               | some m => if m.length ≤ effective_length then some (strip m) else none
               | none => none) with
        | some r => r
        | none =>
          (strip ((splitPunctRuns remaining_content).headD [])).take effective_length

/-- The `while remaining_content and tweet_count < max_tweets` loop of
`split_content`; the fuel argument is `max_tweets - tweet_count`.
Returns the collected chunks and the final remaining content. -/
def splitLoop : Nat → Nat → Str → List Str × Str
  | 0, _, remaining => ([], remaining)
  | fuel + 1, count, remaining =>
    if remaining.isEmpty then ([], remaining)
    else if (_get_next_chunk_enhanced remaining count).isEmpty then ([], remaining)
    else
      ((_get_next_chunk_enhanced remaining count) ::
          (splitLoop fuel (count + 1)
            (_remove_processed_content remaining
              (_get_next_chunk_enhanced remaining count))).1,
        (splitLoop fuel (count + 1)
          (_remove_processed_content remaining
            (_get_next_chunk_enhanced remaining count))).2)

/-- Embedding of `ThreadBuilder.split_content` (lines 52–81): content within the
effective length is returned as a single chunk `[content]`; otherwise the
enhanced chunking loop runs, followed by the closing-tweet salvage of any
long leftover. -/
def split_content (content : Str) (max_tweets : Nat := 10) : List Str :=
  if content.length ≤ effective_length then [content]
  else
    let r := splitLoop max_tweets 0 content
    if ¬r.2.isEmpty ∧ 50 < (strip r.2).length then
      if ¬(_create_closing_tweet r.2).isEmpty ∧ r.1.length < max_tweets then
        r.1 ++ [_create_closing_tweet r.2]
      else r.1
    else r.1

/-! ### Claims about the deduplicator -/

/-- C3: for every string `x`, every prior deduplicator state and every
content type, after `add_used_content(x)` a subsequent
`is_content_unique(x)` at the default threshold `0.8` returns `false`:
the recorded content hash is found in `content_hashes`, so the first check
of `is_content_unique` rejects the exact duplicate. -/
theorem dedup_record_then_check_rejects (d : ContentDeduplicator)
    (x content_type : Str) :
    (d.add_used_content x content_type).is_content_unique x (4 / 5) = false := by
  unfold ContentDeduplicator.is_content_unique ContentDeduplicator.add_used_content
  rw [if_pos (Finset.mem_insert_self _ _)]

/-- C9: `ContentIdeator.clear_content_history` calls
`self.deduplicator.clear_history()`, but `class ContentDeduplicator`
defines no method `clear_history`; the attribute lookup fails and the call
raises `AttributeError` for every state, so the three deduplication sets
are never reset. -/
theorem clear_content_history_raises (d : ContentDeduplicator) :
    clear_content_history d = Except.error (PyErr.attributeError "clear_history") :=
  rfl

/-- C10: `is_content_unique` is read-only on the shared deduplication
index: for every state, string and threshold, the post-state equals the
pre-state on every execution path, and the returned boolean is the one
computed by `is_content_unique`. -/
theorem is_content_unique_readonly (d : ContentDeduplicator)
    (content : Str) (thr : ℚ) :
    (d.is_content_unique_run content thr).2 = d ∧
    (d.is_content_unique_run content thr).1 = d.is_content_unique content thr := by
  unfold ContentDeduplicator.is_content_unique_run ContentDeduplicator.is_content_unique
  by_cases h1 : contentKey content ∈ d.content_hashes
  · simp only [h1, if_true, and_self]
  · by_cases h2 : (extract_key_phrases content).isEmpty <;> simp [h1, h2]

/-! ### Length facts about the string primitives -/

theorem dropWhile_length_le (p : Char → Bool) (s : Str) :
    (s.dropWhile p).length ≤ s.length := by
  induction s with
  | nil => simp
  | cons c cs ih =>
    cases h : p c
    · simp [List.dropWhile_cons, h]
    · simp only [List.dropWhile_cons, h, if_true, List.length_cons]
      exact le_trans ih (Nat.le_succ _)

theorem lstrip_length_le (s : Str) : (lstrip s).length ≤ s.length :=
  dropWhile_length_le isWS s

theorem rstrip_length_le (s : Str) : (rstrip s).length ≤ s.length := by
  unfold rstrip
  rw [List.length_reverse]
  have h := dropWhile_length_le isWS s.reverse
  rw [List.length_reverse] at h
  exact h

theorem strip_length_le (s : Str) : (strip s).length ≤ s.length :=
  le_trans (lstrip_length_le _) (rstrip_length_le _)

theorem pyTake_length_le (s : Str) (n : Int) (h : 0 ≤ n) :
    (pyTake s n).length ≤ n.toNat := by
  unfold pyTake
  rw [if_pos h, List.length_take]
  exact min_le_left _ _

/-! ### C1: the optimizer's 280-character guarantee -/

/-- Helper: the final clamp of `optimize_tweet_length` keeps the result
within `max_length` provided the hashtag suffix leaves at least three
characters of budget. -/
theorem final_clamp_le (c2 ht : Str) (mx : Nat) (hH : ht.length + 3 ≤ mx) :
    (if mx < (strip c2 ++ ht).length then
        strip (pyTake c2 ((mx : Int) - (ht.length : Int) - 3)) ++ ("...".toList) ++ ht
      else strip c2 ++ ht).length ≤ mx := by
  split
  · have l1 : (strip (pyTake c2 ((mx : Int) - (ht.length : Int) - 3))).length ≤
        ((mx : Int) - (ht.length : Int) - 3).toNat :=
      le_trans (strip_length_le _) (pyTake_length_le _ _ (by omega))
    simp only [List.length_append]
    have l2 : ("...".toList).length = 3 := rfl
    omega
  · omega

/-- Helper: when every hashtag found in the text is at most 15 characters
long, the hashtag suffix ` `-plus-joined-tags of `optimize_tweet_length`
is at most 17 characters (at most two kept tags totalling ≤ 15, plus
separators), and ` #Drone` (7 characters) when the text has none. -/
theorem pickTags_suffix_len_le (text : Str)
    (h : ∀ tag ∈ findHashtags text, tag.length ≤ 15) :
    (' ' :: joinSpace (pickTags text)).length ≤ 17 := by
  unfold pickTags
  cases hfh : findHashtags text with
  | nil => simp [joinSpace]
  | cons t rest =>
    have ht15 : t.length ≤ 15 := h t (hfh ▸ List.mem_cons_self t rest)
    cases rest with
    | nil =>
      have hft : filterTags [t] = [t] := by
        simp [filterTags, List.take_succ_cons, ht15]
      simp only [hft, List.isEmpty_cons, Bool.false_eq_true, if_false]
      simp [joinSpace]
      omega
    | cons u rest' =>
      have hft : filterTags (t :: u :: rest') =
          if t.length + u.length ≤ 15 then [t, u] else [t] := by
        simp only [filterTags, List.take_succ_cons, List.take_zero, List.foldl_cons,
          List.foldl_nil, Nat.zero_add, List.nil_append]
        rw [if_pos ht15]
        simp only [List.foldl_cons, List.foldl_nil, Nat.zero_add]
        split <;> simp
      by_cases htu : t.length + u.length ≤ 15
      · simp only [List.isEmpty_cons, Bool.false_eq_true, if_false, hft, if_pos htu]
        simp [joinSpace]
        omega
      · simp only [List.isEmpty_cons, Bool.false_eq_true, if_false, hft, if_neg htu]
        simp [joinSpace]
        omega

set_option maxRecDepth 16000 in
/-- C1 counterexample: the claim `len(optimize_tweet_length(text)) ≤ 280
for every text` is false.  On a text that is one 280-character hashtag,
the shortest-hashtag fallback keeps the whole tag, the hashtag suffix is
281 characters, and the final clamp's negative slice cannot shrink it:
the result has 284 characters. -/
theorem optimize_length_not_always_le_max :
    ¬ ((optimize_tweet_length ('#' :: List.replicate 279 'a') 260 280).length ≤ 280) := by
  decide

/-- C1 (amended): for every input text in which each hashtag occurrence
(`#\w+` match) is at most 15 characters long — in particular whenever the
text has no hashtag — the result of
`optimize_tweet_length(text, 260, 280)` has length at most 280. -/
theorem optimize_length_le_max (text : Str)
    (h : ∀ tag ∈ findHashtags text, tag.length ≤ 15) :
    (optimize_tweet_length text 260 280).length ≤ 280 := by
  have hH : (' ' :: joinSpace (pickTags text)).length ≤ 17 :=
    pickTags_suffix_len_le text h
  unfold optimize_tweet_length
  exact final_clamp_le _ _ 280 (by omega)

/-- C1 witness: a concrete text with a short hashtag satisfies the
hypothesis, and its optimized tweet fits in 280 characters. -/
theorem optimize_length_le_max_witness :
    (∀ tag ∈ findHashtags (("Drones are transforming logistics. #Drone".toList)),
        tag.length ≤ 15) ∧
    (optimize_tweet_length (("Drones are transforming logistics. #Drone".toList))
        260 280).length ≤ 280 :=
  ⟨by decide, optimize_length_le_max _ (by decide)⟩

theorem noTagB_cons (x : Char) (l : Str) :
    noTagB (x :: l) = true ↔
      ((x = '#' → headNonWord l = true) ∧ noTagB l = true) := by
  cases l with
  | nil => simp [noTagB, headNonWord]
  | cons y l' =>
    simp only [noTagB, headNonWord, List.head?_cons, Option.all_some,
      Bool.and_eq_true, Bool.not_eq_true', Bool.and_eq_false_iff,
      decide_eq_false_iff_not, decide_eq_true_eq]
    constructor
    · rintro ⟨h1, h2⟩
      refine ⟨fun hx => ?_, h2⟩
      rcases h1 with h | h
      · exact absurd hx h
      · exact h
    · rintro ⟨h1, h2⟩
      refine ⟨?_, h2⟩
      by_cases hx : x = '#'
      · exact Or.inr (h1 hx)
      · exact Or.inl hx

theorem noTagB_of_cons {x : Char} {l : Str} (h : noTagB (x :: l) = true) :
    noTagB l = true :=
  ((noTagB_cons x l).mp h).2

theorem noTag_append (a b : Str) (ha : noTagB a = true) (hb : noTagB b = true)
    (hhb : headNonWord b = true) : noTagB (a ++ b) = true := by
  induction a with
  | nil => simpa
  | cons x a' ih =>
    have h1 := (noTagB_cons x a').mp ha
    rw [List.cons_append]
    refine (noTagB_cons _ _).mpr ⟨?_, ih h1.2⟩
    intro hx
    cases a' with
    | nil => simpa using hhb
    | cons z a'' => simpa [headNonWord] using h1.1 hx

theorem noTag_take (s : Str) : ∀ n : Nat, noTagB s = true →
    noTagB (s.take n) = true := by
  induction s with
  | nil => intro n h; simpa
  | cons x l ih =>
    intro n h
    cases n with
    | zero => rfl
    | succ m =>
      rw [List.take_succ_cons]
      have h1 := (noTagB_cons x l).mp h
      refine (noTagB_cons _ _).mpr ⟨?_, ih m h1.2⟩
      intro hx
      have h2 := h1.1 hx
      cases l with
      | nil => simp [headNonWord]
      | cons y l' =>
        cases m with
        | zero => simp [headNonWord]
        | succ j => rw [List.take_succ_cons]; simpa [headNonWord] using h2

theorem noTag_drop (s : Str) : ∀ n : Nat, noTagB s = true →
    noTagB (s.drop n) = true := by
  induction s with
  | nil => intro n h; simpa
  | cons x l ih =>
    intro n h
    cases n with
    | zero => exact h
    | succ m => rw [List.drop_succ_cons]; exact ih m (noTagB_of_cons h)

theorem dropWhile_eq_drop (p : Char → Bool) (s : Str) :
    ∃ k, s.dropWhile p = s.drop k := by
  induction s with
  | nil => exact ⟨0, rfl⟩
  | cons c l ih =>
    by_cases h : p c
    · obtain ⟨k, hk⟩ := ih
      exact ⟨k + 1, by rw [List.dropWhile_cons, if_pos h, List.drop_succ_cons, hk]⟩
    · exact ⟨0, by rw [List.dropWhile_cons, if_neg h, List.drop_zero]⟩

theorem dropWhile_head_not (p : Char → Bool) (s : Str) :
    ∀ c, (s.dropWhile p).head? = some c → p c = false := by
  induction s with
  | nil => intro c hc; simp at hc
  | cons x l ih =>
    intro c hc
    rw [List.dropWhile_cons] at hc
    by_cases h : p x
    · rw [if_pos h] at hc; exact ih c hc
    · rw [if_neg h] at hc
      simp only [List.head?_cons, Option.some.injEq] at hc
      subst hc
      exact Bool.eq_false_iff.mpr h

theorem dropWhile_eq_self_of (p : Char → Bool) (s : Str)
    (h : s.head?.all (fun c => !p c) = true) : s.dropWhile p = s := by
  cases s with
  | nil => rfl
  | cons c l =>
    simp only [List.head?_cons, Option.all_some, Bool.not_eq_true'] at h
    rw [List.dropWhile_cons, if_neg (by simp [h])]

theorem headNonWS_lstrip (s : Str) : headNonWS (lstrip s) = true := by
  unfold headNonWS lstrip
  cases hc : (s.dropWhile isWS).head? with
  | none => rfl
  | some c =>
    have := dropWhile_head_not isWS s c hc
    simp [this]

theorem lstrip_eq_self (s : Str) (h : headNonWS s = true) : lstrip s = s :=
  dropWhile_eq_self_of isWS s h

theorem lastNonWS_rstrip (s : Str) : lastNonWS (rstrip s) = true := by
  unfold lastNonWS rstrip
  rw [← List.head?_reverse, List.reverse_reverse]
  cases hc : (s.reverse.dropWhile isWS).head? with
  | none => rfl
  | some c =>
    have := dropWhile_head_not isWS s.reverse c hc
    simp [this]

theorem rstrip_eq_self (s : Str) (h : lastNonWS s = true) : rstrip s = s := by
  unfold rstrip
  rw [dropWhile_eq_self_of isWS s.reverse (by
    rw [List.head?_reverse]; exact h), List.reverse_reverse]

theorem lastNonWS_of_cons {c : Char} {l : Str} (h : lastNonWS (c :: l) = true) :
    lastNonWS l = true := by
  cases l with
  | nil => rfl
  | cons y l' =>
    unfold lastNonWS at h ⊢
    rwa [List.getLast?_cons_cons] at h

theorem lastNonWS_dropWhile (p : Char → Bool) (s : Str)
    (h : lastNonWS s = true) : lastNonWS (s.dropWhile p) = true := by
  induction s with
  | nil => exact h
  | cons c l ih =>
    rw [List.dropWhile_cons]
    by_cases hc : p c
    · rw [if_pos hc]; exact ih (lastNonWS_of_cons h)
    · rw [if_neg hc]; exact h

theorem strip_eq_self (s : Str) (h1 : headNonWS s = true)
    (h2 : lastNonWS s = true) : strip s = s := by
  unfold strip
  rw [rstrip_eq_self s h2, lstrip_eq_self s h1]

theorem headNonWS_strip (s : Str) : headNonWS (strip s) = true :=
  headNonWS_lstrip _

theorem lastNonWS_strip (s : Str) : lastNonWS (strip s) = true :=
  lastNonWS_dropWhile isWS (rstrip s) (lastNonWS_rstrip s)

theorem rstrip_eq_take (s : Str) : ∃ m, rstrip s = s.take m := by
  obtain ⟨k, hk⟩ := dropWhile_eq_drop isWS s.reverse
  refine ⟨s.length - k, ?_⟩
  unfold rstrip
  rw [hk, List.reverse_drop, List.reverse_reverse, List.length_reverse]

theorem noTag_strip (s : Str) (h : noTagB s = true) :
    noTagB (strip s) = true := by
  obtain ⟨m, hm⟩ := rstrip_eq_take s
  obtain ⟨k, hk⟩ := dropWhile_eq_drop isWS (rstrip s)
  unfold strip lstrip
  rw [hk, hm]
  exact noTag_drop _ k (noTag_take s m h)

theorem dropWhile_replicate_append (p : Char → Bool) (x : Char) (hx : p x = true)
    (l : Str) : ∀ n, (List.replicate n x ++ l).dropWhile p = l.dropWhile p := by
  intro n
  induction n with
  | zero => rfl
  | succ m ih =>
    rw [List.replicate_succ, List.cons_append, List.dropWhile_cons, if_pos hx]
    exact ih

theorem strip_append_spaces (c : Str) (n : Nat) :
    strip (c ++ List.replicate n ' ') = strip c := by
  unfold strip rstrip
  rw [List.reverse_append, List.reverse_replicate,
    dropWhile_replicate_append isWS ' ' rfl]

/-! ### C6 groundwork: the hashtag scanners on structured inputs -/

theorem fhAux_zero_cons (c : Char) (rest : Str) :
    findHashtagsAux 0 (c :: rest) =
      if c = '#' then
        match rest.takeWhile isWordChar with
        | [] => findHashtagsAux 0 rest
        | w => ('#' :: w) :: findHashtagsAux w.length rest
      else findHashtagsAux 0 rest := rfl

theorem rhAux_zero_cons (c : Char) (rest : Str) :
    removeHashtagsAux 0 (c :: rest) =
      if c = '#' then
        match rest.takeWhile isWordChar with
        | [] => c :: removeHashtagsAux 0 rest
        | w => removeHashtagsAux w.length rest
      else c :: removeHashtagsAux 0 rest := rfl

theorem fhAux_skip (w : Str) : ∀ rest : Str,
    findHashtagsAux w.length (w ++ rest) = findHashtagsAux 0 rest := by
  induction w with
  | nil => intro rest; rfl
  | cons c w' ih => intro rest; exact ih rest

theorem rhAux_skip (w : Str) : ∀ rest : Str,
    removeHashtagsAux w.length (w ++ rest) = removeHashtagsAux 0 rest := by
  induction w with
  | nil => intro rest; rfl
  | cons c w' ih => intro rest; exact ih rest

theorem headNonWord_takeWhile_nil (l : Str) (h : headNonWord l = true) :
    l.takeWhile isWordChar = [] := by
  cases l with
  | nil => rfl
  | cons c r =>
    simp only [headNonWord, List.head?_cons, Option.all_some, Bool.not_eq_true'] at h
    rw [List.takeWhile_cons, if_neg (by simp [h])]

theorem takeWhile_word_append (w : Str) (r : Str)
    (hw : ∀ c ∈ w, isWordChar c = true) (hr : headNonWord r = true) :
    (w ++ r).takeWhile isWordChar = w := by
  induction w with
  | nil => exact headNonWord_takeWhile_nil r hr
  | cons c w' ih =>
    rw [List.cons_append, List.takeWhile_cons,
      if_pos (hw c (List.mem_cons_self c w')),
      ih (fun x hx => hw x (List.mem_cons_of_mem c hx))]

theorem fh_prepend (c : Str) (r : Str) (hc : noTagB c = true)
    (hr : headNonWord r = true) :
    findHashtagsAux 0 (c ++ r) = findHashtagsAux 0 r := by
  induction c with
  | nil => rfl
  | cons x c' ih =>
    have h1 := (noTagB_cons x c').mp hc
    rw [List.cons_append, fhAux_zero_cons]
    by_cases hx : x = '#'
    · have htw : (c' ++ r).takeWhile isWordChar = [] := by
        cases c' with
        | nil => exact headNonWord_takeWhile_nil r hr
        | cons y c'' =>
          rw [List.cons_append]
          exact headNonWord_takeWhile_nil _ (by
            simpa [headNonWord] using h1.1 hx)
      rw [if_pos hx, htw]
      exact ih h1.2
    · rw [if_neg hx]
      exact ih h1.2

theorem rh_prepend (c : Str) (r : Str) (hc : noTagB c = true)
    (hr : headNonWord r = true) :
    removeHashtagsAux 0 (c ++ r) = c ++ removeHashtagsAux 0 r := by
  induction c with
  | nil => rfl
  | cons x c' ih =>
    have h1 := (noTagB_cons x c').mp hc
    rw [List.cons_append, rhAux_zero_cons]
    by_cases hx : x = '#'
    · have htw : (c' ++ r).takeWhile isWordChar = [] := by
        cases c' with
        | nil => exact headNonWord_takeWhile_nil r hr
        | cons y c'' =>
          rw [List.cons_append]
          exact headNonWord_takeWhile_nil _ (by
            simpa [headNonWord] using h1.1 hx)
      rw [if_pos hx, htw, ih h1.2, List.cons_append]
    · rw [if_neg hx, ih h1.2, List.cons_append]

theorem isTagB_shape (t : Str) (h : isTagB t = true) :
    ∃ w, t = '#' :: w ∧ w ≠ [] ∧ ∀ c ∈ w, isWordChar c = true := by
  cases t with
  | nil => simp [isTagB] at h
  | cons c w =>
    simp only [isTagB, Bool.and_eq_true, decide_eq_true_eq, Bool.not_eq_true',
      List.all_eq_true] at h
    obtain ⟨hc, hw0, hwall⟩ := h
    subst hc
    refine ⟨w, rfl, ?_, hwall⟩
    intro hw
    subst hw
    simp at hw0

theorem joinSpace_single (t : Str) : joinSpace [t] = t := rfl

theorem joinSpace_cons_cons (t u : Str) (ts : List Str) :
    joinSpace (t :: u :: ts) = t ++ ' ' :: joinSpace (u :: ts) := rfl

theorem headNonWord_space_cons (l : Str) : headNonWord (' ' :: l) = true := rfl

theorem fhAux_zero_space_cons (l : Str) :
    findHashtagsAux 0 (' ' :: l) = findHashtagsAux 0 l := by
  rw [fhAux_zero_cons, if_neg (by decide)]

theorem rhAux_zero_space_cons (l : Str) :
    removeHashtagsAux 0 (' ' :: l) = ' ' :: removeHashtagsAux 0 l := by
  rw [rhAux_zero_cons, if_neg (by decide)]

theorem fh_tag_step (y : Char) (w' rest : Str)
    (hwall : ∀ c ∈ y :: w', isWordChar c = true)
    (hr : headNonWord rest = true) :
    findHashtagsAux 0 (('#' :: y :: w') ++ rest) =
      ('#' :: y :: w') :: findHashtagsAux 0 rest := by
  rw [List.cons_append, fhAux_zero_cons, if_pos rfl,
    takeWhile_word_append (y :: w') rest hwall hr]
  show ('#' :: y :: w') :: findHashtagsAux (y :: w').length (y :: w' ++ rest) = _
  rw [fhAux_skip (y :: w') rest]

theorem rh_tag_step (y : Char) (w' rest : Str)
    (hwall : ∀ c ∈ y :: w', isWordChar c = true)
    (hr : headNonWord rest = true) :
    removeHashtagsAux 0 (('#' :: y :: w') ++ rest) =
      removeHashtagsAux 0 rest := by
  rw [List.cons_append, rhAux_zero_cons, if_pos rfl,
    takeWhile_word_append (y :: w') rest hwall hr]
  show removeHashtagsAux (y :: w').length (y :: w' ++ rest) = _
  rw [rhAux_skip (y :: w') rest]

theorem fh_tags : ∀ tags : List Str, (∀ t ∈ tags, isTagB t = true) →
    findHashtagsAux 0 (' ' :: joinSpace tags) = tags := by
  intro tags
  induction tags with
  | nil => intro _; rfl
  | cons t ts ih =>
    intro h
    obtain ⟨w, ht, hw0, hwall⟩ :=
      isTagB_shape t (h t (List.mem_cons_self t ts))
    obtain ⟨y, w', hyw⟩ : ∃ y w', w = y :: w' := by
      cases w with
      | nil => exact absurd rfl hw0
      | cons y w' => exact ⟨y, w', rfl⟩
    subst ht hyw
    cases ts with
    | nil =>
      rw [joinSpace_single, fhAux_zero_space_cons]
      have := fh_tag_step y w' [] hwall rfl
      rw [List.append_nil] at this
      rw [this]
      rfl
    | cons t2 ts' =>
      rw [joinSpace_cons_cons, fhAux_zero_space_cons,
        fh_tag_step y w' (' ' :: joinSpace (t2 :: ts')) hwall
          (headNonWord_space_cons _),
        ih (fun t' ht' => h t' (List.mem_cons_of_mem _ ht'))]

theorem rh_tags : ∀ tags : List Str, tags ≠ [] →
    (∀ t ∈ tags, isTagB t = true) →
    removeHashtagsAux 0 (' ' :: joinSpace tags) =
      List.replicate tags.length ' ' := by
  intro tags
  induction tags with
  | nil => intro h; exact absurd rfl h
  | cons t ts ih =>
    intro _ h
    obtain ⟨w, ht, hw0, hwall⟩ :=
      isTagB_shape t (h t (List.mem_cons_self t ts))
    obtain ⟨y, w', hyw⟩ : ∃ y w', w = y :: w' := by
      cases w with
      | nil => exact absurd rfl hw0
      | cons y w' => exact ⟨y, w', rfl⟩
    subst ht hyw
    cases ts with
    | nil =>
      rw [joinSpace_single, rhAux_zero_space_cons]
      have := rh_tag_step y w' [] hwall rfl
      rw [List.append_nil] at this
      rw [this]
      rfl
    | cons t2 ts' =>
      rw [joinSpace_cons_cons, rhAux_zero_space_cons,
        rh_tag_step y w' (' ' :: joinSpace (t2 :: ts')) hwall
          (headNonWord_space_cons _),
        ih (by simp) (fun t' ht' => h t' (List.mem_cons_of_mem _ ht'))]
      rfl

theorem mem_takeWhile_pred (p : Char → Bool) : ∀ l : Str, ∀ x ∈ l.takeWhile p,
    p x = true := by
  intro l
  induction l with
  | nil => intro x hx; simp at hx
  | cons c rest ih =>
    intro x hx
    rw [List.takeWhile_cons] at hx
    by_cases h : p c
    · rw [if_pos h] at hx
      rcases List.mem_cons.mp hx with h1 | h1
      · exact h1 ▸ h
      · exact ih x h1
    · rw [if_neg h] at hx
      simp at hx

theorem headNonWord_of_takeWhile_nil {l : Str}
    (h : l.takeWhile isWordChar = []) : headNonWord l = true := by
  cases l with
  | nil => rfl
  | cons y r =>
    rw [List.takeWhile_cons] at h
    by_cases hy : isWordChar y
    · rw [if_pos hy] at h; simp at h
    · simp [headNonWord, hy]

theorem headNonWord_dropWhile_word (l : Str) :
    headNonWord (l.dropWhile isWordChar) = true := by
  unfold headNonWord
  cases hc : (l.dropWhile isWordChar).head? with
  | none => rfl
  | some c =>
    have := dropWhile_head_not isWordChar l c hc
    simp [this]

/-- The output of `re.sub(r'#\w+', '', ·)` contains no `#\w+` match, and
the scan preserves a non-word first character. -/
theorem rh_noTag_aux : ∀ n : Nat, ∀ s : Str, s.length ≤ n →
    noTagB (removeHashtagsAux 0 s) = true ∧
      (headNonWord s = true → headNonWord (removeHashtagsAux 0 s) = true) := by
  intro n
  induction n with
  | zero =>
    intro s hs
    have hnil : s = [] := List.length_eq_zero.mp (Nat.le_zero.mp hs)
    subst hnil
    exact ⟨rfl, fun _ => rfl⟩
  | succ m ih =>
    intro s hs
    cases s with
    | nil => exact ⟨rfl, fun _ => rfl⟩
    | cons c rest =>
      have hrestlen : rest.length ≤ m := by
        simp only [List.length_cons] at hs; omega
      rw [rhAux_zero_cons]
      by_cases hc : c = '#'
      · rw [if_pos hc]
        cases htw : rest.takeWhile isWordChar with
        | nil =>
          have hrest := ih rest hrestlen
          have hhd : headNonWord rest = true := headNonWord_of_takeWhile_nil htw
          constructor
          · exact (noTagB_cons c _).mpr
              ⟨fun _ => hrest.2 hhd, hrest.1⟩
          · intro _
            subst hc
            rfl
        | cons y w' =>
          have hsplit : rest = (y :: w') ++ rest.dropWhile isWordChar := by
            conv_lhs => rw [← List.takeWhile_append_dropWhile (p := isWordChar)
              (l := rest)]
            rw [htw]
          have hr2len : (rest.dropWhile isWordChar).length ≤ m :=
            le_trans (dropWhile_length_le isWordChar rest) hrestlen
          have hr2 := ih (rest.dropWhile isWordChar) hr2len
          have hhd2 : headNonWord (rest.dropWhile isWordChar) = true :=
            headNonWord_dropWhile_word rest
          have hval : removeHashtagsAux (y :: w').length rest =
              removeHashtagsAux 0 (rest.dropWhile isWordChar) := by
            conv_lhs => rw [hsplit]
            exact rhAux_skip (y :: w') _
          show noTagB (removeHashtagsAux (y :: w').length rest) = true ∧
            (headNonWord (c :: rest) = true →
              headNonWord (removeHashtagsAux (y :: w').length rest) = true)
          rw [hval]
          exact ⟨hr2.1, fun _ => hr2.2 hhd2⟩
      · rw [if_neg hc]
        have hrest := ih rest hrestlen
        cases htw : rest.takeWhile isWordChar with
        | nil =>
          have hhd : headNonWord rest = true := headNonWord_of_takeWhile_nil htw
          constructor
          · exact (noTagB_cons c _).mpr ⟨fun h => absurd h hc, hrest.1⟩
          · intro h
            simp only [headNonWord, List.head?_cons, Option.all_some] at h ⊢
            exact h
        | cons y w' =>
          constructor
          · exact (noTagB_cons c _).mpr ⟨fun h => absurd h hc, hrest.1⟩
          · intro h
            simp only [headNonWord, List.head?_cons, Option.all_some] at h ⊢
            exact h

theorem noTag_rh (s : Str) : noTagB (removeHashtags s) = true :=
  (rh_noTag_aux s.length s le_rfl).1

/-- Every string returned by the `#\w+` scanner is a `#` followed by a
nonempty run of word characters. -/
theorem fhAux_mem_isTag : ∀ n : Nat, ∀ k : Nat, ∀ s : Str, s.length ≤ n →
    ∀ t ∈ findHashtagsAux k s, isTagB t = true := by
  intro n
  induction n with
  | zero =>
    intro k s hs t ht
    have hnil : s = [] := List.length_eq_zero.mp (Nat.le_zero.mp hs)
    subst hnil
    simp [findHashtagsAux] at ht
  | succ m ih =>
    intro k s hs t ht
    cases s with
    | nil => simp [findHashtagsAux] at ht
    | cons c rest =>
      have hrestlen : rest.length ≤ m := by
        simp only [List.length_cons] at hs; omega
      cases k with
      | succ k' => exact ih k' rest hrestlen t ht
      | zero =>
        rw [fhAux_zero_cons] at ht
        by_cases hc : c = '#'
        · rw [if_pos hc] at ht
          cases htw : rest.takeWhile isWordChar with
          | nil =>
            rw [htw] at ht
            exact ih 0 rest hrestlen t ht
          | cons y w' =>
            rw [htw] at ht
            have ht' : t ∈ ('#' :: y :: w') ::
                findHashtagsAux (y :: w').length rest := ht
            rcases List.mem_cons.mp ht' with h1 | h1
            · subst h1
              have hall : ∀ x ∈ y :: w', isWordChar x = true := by
                intro x hx
                exact mem_takeWhile_pred isWordChar rest x (htw ▸ hx)
              simp only [isTagB, Bool.and_eq_true, decide_eq_true_eq,
                Bool.not_eq_true', List.all_eq_true]
              exact ⟨trivial, by simp, hall⟩
            · exact ih (y :: w').length rest hrestlen t h1
        · rw [if_neg hc] at ht
          exact ih 0 rest hrestlen t ht

theorem fh_isTag (s : Str) : ∀ t ∈ findHashtags s, isTagB t = true :=
  fhAux_mem_isTag s.length 0 s le_rfl

theorem splitDS_cons_eq (c : Char) (rest : Str)
    (h : ∀ r', c = '.' → rest = ' ' :: r' → False) :
    splitDotSpace (c :: rest) =
      match splitDotSpace rest with
      | [] => [[c]]
      | p :: ps => (c :: p) :: ps := by
  rw [splitDotSpace]
  exact h

theorem splitDS_ne_nil (s : Str) : splitDotSpace s ≠ [] := by
  induction s using splitDotSpace.induct with
  | case1 => simp [splitDotSpace]
  | case2 rest ih => simp [splitDotSpace]
  | case3 c rest h ih ih1 => exact absurd ih ih1
  | case4 c rest h p ps hm ih =>
    rw [splitDS_cons_eq c rest h, hm]
    simp

theorem splitDS_reconstruct (s : Str) :
    (splitDotSpace s).headD [] ++ tailJoinDS (splitDotSpace s).tail = s := by
  induction s using splitDotSpace.induct with
  | case1 => rfl
  | case2 rest ih =>
    rw [show splitDotSpace ('.' :: ' ' :: rest) = [] :: splitDotSpace rest
      from rfl]
    obtain ⟨p, ps, hps⟩ : ∃ p ps, splitDotSpace rest = p :: ps := by
      cases hsp : splitDotSpace rest with
      | nil => exact absurd hsp (splitDS_ne_nil rest)
      | cons p ps => exact ⟨p, ps, rfl⟩
    rw [hps] at ih ⊢
    simp only [List.headD_cons, List.tail_cons] at ih ⊢
    rw [List.nil_append, tailJoinDS, ih]
  | case3 c rest h ih ih1 => exact absurd ih (splitDS_ne_nil rest)
  | case4 c rest h p ps hm ih =>
    rw [splitDS_cons_eq c rest h, hm]
    rw [hm] at ih
    simp only [List.headD_cons, List.tail_cons] at ih ⊢
    show (c :: p) ++ tailJoinDS ps = c :: rest
    rw [List.cons_append, ih]

theorem trimLoop_take (A : Int) : ∀ (parts : List Str) (acc : Str),
    ∃ k, trimLoop A acc parts = (acc ++ tailJoinDS parts).take k := by
  intro parts
  induction parts with
  | nil =>
    intro acc
    refine ⟨acc.length, ?_⟩
    rw [trimLoop, tailJoinDS, List.append_nil, List.take_length]
  | cons p ps ih =>
    intro acc
    rw [trimLoop]
    by_cases hc : ((acc.length + 2 + p.length : Nat) : Int) ≤ A - 3
    · rw [if_pos hc]
      obtain ⟨k, hk⟩ := ih (acc ++ '.' :: ' ' :: p)
      refine ⟨k, ?_⟩
      rw [hk]
      congr 1
      rw [tailJoinDS, List.append_assoc]
      rfl
    · rw [if_neg hc]
      refine ⟨acc.length, ?_⟩
      rw [tailJoinDS, List.take_left]

/-! ### C6 groundwork: no-hashtag and stripping invariants of the stages -/

theorem noTag_pyTake (s : Str) (n : Int) (h : noTagB s = true) :
    noTagB (pyTake s n) = true := by
  unfold pyTake
  split <;> exact noTag_take s _ h

theorem dots_noTag : noTagB ("...".toList) = true := rfl

theorem dots_headNonWord : headNonWord ("...".toList) = true := rfl

theorem dots_headNonWS : headNonWS ("...".toList) = true := rfl

theorem dots_lastNonWS : lastNonWS ("...".toList) = true := by decide

theorem noTag_trimStage (c0 : Str) (mn : Nat) (A : Int) (H : Nat)
    (h : noTagB c0 = true) : noTagB (trimStage c0 mn A H) = true := by
  unfold trimStage
  by_cases h1 : (c0.length : Int) > A
  · rw [if_pos h1]
    show noTagB
      (if ((trimLoop A ((splitDotSpace c0).headD [])
            (splitDotSpace c0).tail).length : Int) < (mn : Int) - (H : Int) then
        pyTake c0 (A - 3) ++ ("...".toList)
      else trimLoop A ((splitDotSpace c0).headD []) (splitDotSpace c0).tail) = true
    split
    · exact noTag_append _ _ (noTag_pyTake c0 _ h) dots_noTag dots_headNonWord
    · obtain ⟨k, hk⟩ :=
        trimLoop_take A (splitDotSpace c0).tail ((splitDotSpace c0).headD [])
      rw [hk, splitDS_reconstruct c0]
      exact noTag_take c0 k h
  · rw [if_neg h1]
    exact h

theorem addFiller_result (c ht : Str) (mx : Nat) : ∀ fs : List Str,
    addFiller c ht mx fs = c ∨ ∃ f ∈ fs, addFiller c ht mx fs = c ++ f := by
  intro fs
  induction fs with
  | nil => exact Or.inl rfl
  | cons f fs' ih =>
    rw [addFiller]
    by_cases h : c.length + f.length + ht.length ≤ mx
    · rw [if_pos h]
      exact Or.inr ⟨f, List.mem_cons_self f fs', rfl⟩
    · rw [if_neg h]
      rcases ih with he | ⟨g, hg, he⟩
      · exact Or.inl he
      · exact Or.inr ⟨g, List.mem_cons_of_mem f hg, he⟩

theorem fillers_noTag : ∀ f ∈ fillers, noTagB f = true ∧ headNonWord f = true := by
  decide

theorem noTag_fillStage (c1 ht : Str) (mn mx : Nat) (h : noTagB c1 = true) :
    noTagB (fillStage c1 ht mn mx) = true := by
  unfold fillStage
  split
  · rcases addFiller_result c1 ht mx fillers with he | ⟨f, hf, he⟩
    · rw [he]; exact h
    · rw [he]
      exact noTag_append _ _ h (fillers_noTag f hf).1 (fillers_noTag f hf).2
  · exact h

theorem headNonWS_append_left (a b : Str) (ha : headNonWS a = true)
    (hb : headNonWS b = true) : headNonWS (a ++ b) = true := by
  cases a with
  | nil => exact hb
  | cons x a' => exact ha

theorem lastNonWS_append_right (a b : Str) (hb : b ≠ [])
    (h : lastNonWS b = true) : lastNonWS (a ++ b) = true := by
  unfold lastNonWS at h ⊢
  rw [List.getLast?_append_of_ne_nil a hb]
  exact h

/-- The final clamp of `optimize_tweet_length` always produces a hashtag
suffix preceded by a stripped, hashtag-free content part. -/
theorem clamp_shape (c2 ht : Str) (mx : Nat) (A : Int)
    (h2 : noTagB c2 = true) :
    ∃ c, (if mx < (strip c2 ++ ht).length then
            strip (pyTake c2 (A - 3)) ++ ("...".toList) ++ ht
          else strip c2 ++ ht) = c ++ ht ∧
      noTagB c = true ∧ headNonWS c = true ∧ lastNonWS c = true := by
  split
  · refine ⟨strip (pyTake c2 (A - 3)) ++ ("...".toList),
      by rw [List.append_assoc], ?_, ?_, ?_⟩
    · exact noTag_append _ _ (noTag_strip _ (noTag_pyTake c2 _ h2))
        dots_noTag dots_headNonWord
    · exact headNonWS_append_left _ _ (headNonWS_strip _) dots_headNonWS
    · exact lastNonWS_append_right _ _ (by decide) dots_lastNonWS
  · exact ⟨strip c2, rfl, noTag_strip _ h2, headNonWS_strip _, lastNonWS_strip _⟩

/-- Shape of every `optimize_tweet_length` output: a stripped,
hashtag-free content part followed by the hashtag suffix. -/
theorem optimize_shape (text : Str) (mn mx : Nat) :
    ∃ c, optimize_tweet_length text mn mx =
        c ++ ' ' :: joinSpace (pickTags text) ∧
      noTagB c = true ∧ headNonWS c = true ∧ lastNonWS c = true := by
  have h0 : noTagB (strip (removeHashtags text)) = true :=
    noTag_strip _ (noTag_rh text)
  have h1 := noTag_trimStage (strip (removeHashtags text)) mn
    ((mx : Int) - (((' ' :: joinSpace (pickTags text)) : Str).length : Int))
    (' ' :: joinSpace (pickTags text)).length h0
  have h2 := noTag_fillStage _ (' ' :: joinSpace (pickTags text)) mn mx h1
  unfold optimize_tweet_length
  exact clamp_shape _ _ mx _ h2

theorem filterTags_one (a : Str) :
    filterTags [a] = if a.length ≤ 15 then [a] else [] := by
  by_cases h : a.length ≤ 15 <;> simp [filterTags, h]

theorem filterTags_two (a b : Str) (rest : List Str) :
    filterTags (a :: b :: rest) =
      if a.length ≤ 15 then
        (if a.length + b.length ≤ 15 then [a, b] else [a])
      else (if b.length ≤ 15 then [b] else []) := by
  by_cases h1 : a.length ≤ 15
  · by_cases h2 : a.length + b.length ≤ 15 <;> simp [filterTags, h1, h2]
  · by_cases h2 : b.length ≤ 15 <;> simp [filterTags, h1, h2]

theorem minByLen_mem : ∀ (t : Str) (ts : List Str), minByLen (t :: ts) ∈ t :: ts := by
  intro t ts
  induction ts generalizing t with
  | nil => simp [minByLen]
  | cons u ts' ih =>
    rw [show minByLen (t :: u :: ts') =
      if t.length ≤ (minByLen (u :: ts')).length then t else minByLen (u :: ts')
      from rfl]
    by_cases h : t.length ≤ (minByLen (u :: ts')).length
    · rw [if_pos h]; exact List.mem_cons_self _ _
    · rw [if_neg h]; exact List.mem_cons_of_mem _ (ih u)

/-- The selected hashtags: nonempty, each a well-formed `#\w+` tag, and
either at most two tags totalling at most 15 characters or a single tag. -/
theorem pickTags_spec (text : Str) :
    pickTags text ≠ [] ∧ (∀ t ∈ pickTags text, isTagB t = true) ∧
      (sumLen (pickTags text) ≤ 15 ∧ (pickTags text).length ≤ 2 ∨
        ∃ a, pickTags text = [a]) := by
  have hfta := fh_isTag text
  unfold pickTags
  cases hfh : findHashtags text with
  | nil =>
    refine ⟨by simp, ?_, Or.inr ⟨("#Drone".toList), by simp⟩⟩
    intro t ht
    simp only [List.isEmpty_nil, if_true] at ht
    simp only [List.mem_singleton] at ht
    subst ht
    decide
  | cons a rest =>
    rw [hfh] at hfta
    have hA : isTagB a = true := hfta a (List.mem_cons_self a rest)
    have hMin : isTagB (minByLen (a :: rest)) = true :=
      hfta _ (minByLen_mem a rest)
    cases rest with
    | nil =>
      by_cases h1 : a.length ≤ 15
      · simp only [List.isEmpty_cons, Bool.false_eq_true, if_false,
          filterTags_one, h1, if_true, List.isEmpty_nil]
        exact ⟨by simp, by simpa using hA, Or.inr ⟨a, rfl⟩⟩
      · simp only [List.isEmpty_cons, Bool.false_eq_true, if_false,
          filterTags_one, h1, List.isEmpty_nil, if_true]
        refine ⟨by simp, ?_, Or.inr ⟨_, rfl⟩⟩
        intro t ht
        simp only [List.mem_singleton] at ht
        subst ht
        exact hMin
    | cons b rest' =>
      have hB : isTagB b = true := hfta b (List.mem_cons_of_mem a (List.mem_cons_self b rest'))
      by_cases h1 : a.length ≤ 15
      · by_cases h2 : a.length + b.length ≤ 15
        · simp only [List.isEmpty_cons, Bool.false_eq_true, if_false,
            filterTags_two, h1, h2, if_true]
          refine ⟨by simp, ?_, Or.inl ⟨by simp [sumLen]; omega, by simp⟩⟩
          intro t ht
          rcases List.mem_cons.mp ht with h | h
          · exact h ▸ hA
          · simp only [List.mem_singleton] at h
            exact h ▸ hB
        · simp only [List.isEmpty_cons, Bool.false_eq_true, if_false,
            filterTags_two, h1, h2, if_true]
          exact ⟨by simp, by simpa using hA, Or.inr ⟨a, rfl⟩⟩
      · by_cases h2 : b.length ≤ 15
        · simp only [List.isEmpty_cons, Bool.false_eq_true, if_false,
            filterTags_two, h1, h2, if_true]
          exact ⟨by simp, by simpa using hB, Or.inr ⟨b, rfl⟩⟩
        · simp only [List.isEmpty_cons, Bool.false_eq_true, if_false,
            filterTags_two, h1, h2, List.isEmpty_nil, if_true]
          refine ⟨by simp, ?_, Or.inr ⟨_, rfl⟩⟩
          intro t ht
          simp only [List.mem_singleton] at ht
          exact ht ▸ hMin

/-- Re-running the hashtag selection on an already-selected tag list
returns it unchanged. -/
theorem pickTags_fixed (s : Str) (tags : List Str)
    (hfh : findHashtags s = tags)
    (hgood : sumLen tags ≤ 15 ∧ tags.length ≤ 2 ∨ ∃ a, tags = [a])
    (hne : tags ≠ []) :
    pickTags s = tags := by
  unfold pickTags
  rw [hfh]
  cases tags with
  | nil => exact absurd rfl hne
  | cons a rest =>
    cases rest with
    | nil =>
      by_cases h1 : a.length ≤ 15
      · simp [filterTags_one, h1]
      · simp [filterTags_one, h1, minByLen]
    | cons b rest' =>
      rcases hgood with ⟨hsum, hlen⟩ | ⟨x, hx⟩
      · cases rest' with
        | nil =>
          have h2 : a.length + b.length ≤ 15 := by
            simp only [sumLen] at hsum; omega
          have h1 : a.length ≤ 15 := by omega
          simp [filterTags_two, h1, h2]
        | cons c rest'' => simp at hlen
      · simp at hx

/-! ### C6: idempotence of the length optimizer on in-band outputs -/

theorem trimStage_short (c : Str) (mn : Nat) (A : Int) (H : Nat)
    (h : (c.length : Int) ≤ A) : trimStage c mn A H = c := by
  unfold trimStage
  rw [if_neg (by omega)]

theorem fillStage_long (c ht : Str) (mn mx : Nat)
    (h : mn ≤ c.length + ht.length) : fillStage c ht mn mx = c := by
  unfold fillStage
  rw [if_neg (by omega)]

/-- Running `optimize_tweet_length` on a string whose hashtag selection and
hashtag-stripped content are already in fixed form, with total length in
`[260, 280]`, rebuilds exactly the same string. -/
theorem optimize_second_run (s : Str) (c : Str) (tags : List Str)
    (hpt : pickTags s = tags)
    (hrh : strip (removeHashtags s) = c)
    (hhd : headNonWS c = true) (hlast : lastNonWS c = true)
    (hlo : 260 ≤ c.length + (' ' :: joinSpace tags : Str).length)
    (hhi : c.length + (' ' :: joinSpace tags : Str).length ≤ 280) :
    optimize_tweet_length s 260 280 = c ++ ' ' :: joinSpace tags := by
  simp only [optimize_tweet_length, hpt, hrh]
  rw [trimStage_short c 260 _ _ ?hA, fillStage_long c _ 260 280 (by omega),
    strip_eq_self c hhd hlast, if_neg ?hB]
  case hA => push_cast; omega
  case hB => rw [List.length_append]; omega

/-- C6: idempotence of the length optimizer.  For every text, if the
optimizer's output `t` lies in the 260–280 band, a second application of
`optimize_tweet_length` with the same bounds returns `t` unchanged: the
re-extracted hashtags are exactly the previously selected ones, the
re-cleaned content is exactly the previous content part, and no trimming,
filling or clamping fires. -/
theorem optimize_idempotent (text : Str)
    (hlo : 260 ≤ (optimize_tweet_length text 260 280).length)
    (hhi : (optimize_tweet_length text 260 280).length ≤ 280) :
    optimize_tweet_length (optimize_tweet_length text 260 280) 260 280 =
      optimize_tweet_length text 260 280 := by
  obtain ⟨c, hout, hnt, hhd, hlast⟩ := optimize_shape text 260 280
  obtain ⟨hne, hisTag, hgood⟩ := pickTags_spec text
  rw [hout] at hlo hhi ⊢
  rw [List.length_append] at hlo hhi
  have hfh : findHashtags (c ++ ' ' :: joinSpace (pickTags text)) =
      pickTags text := by
    unfold findHashtags
    rw [fh_prepend c _ hnt (headNonWord_space_cons _)]
    exact fh_tags _ hisTag
  have hrh : strip (removeHashtags (c ++ ' ' :: joinSpace (pickTags text))) = c := by
    unfold removeHashtags
    rw [rh_prepend c _ hnt (headNonWord_space_cons _), rh_tags _ hne hisTag, strip_append_spaces,
      strip_eq_self c hhd hlast]
  exact optimize_second_run _ c (pickTags text)
    (pickTags_fixed _ _ hfh hgood hne) hrh hhd hlast hlo hhi

set_option maxRecDepth 16000 in
/-- C6 witness: a concrete 253-character text yields a 260-character
optimized tweet, and re-optimizing returns it unchanged. -/
theorem optimize_idempotent_witness :
    260 ≤ (optimize_tweet_length (List.replicate 253 'a') 260 280).length ∧
    (optimize_tweet_length (List.replicate 253 'a') 260 280).length ≤ 280 ∧
    optimize_tweet_length
        (optimize_tweet_length (List.replicate 253 'a') 260 280) 260 280 =
      optimize_tweet_length (List.replicate 253 'a') 260 280 :=
  ⟨by decide, by decide, optimize_idempotent _ (by decide) (by decide)⟩

/-! ### C2: hashtag distribution and the 280-character bound -/

theorem chooseTagsAux_bound (avail : Int) : ∀ (tags acc : List Str),
    (acc ≠ [] → (((joinSpace acc).length + 2 : Nat) : Int) ≤ avail) →
    chooseTagsAux avail acc tags ≠ [] →
    (((joinSpace (chooseTagsAux avail acc tags)).length + 2 : Nat) : Int) ≤ avail := by
  intro tags
  induction tags with
  | nil => intro acc h hne; exact h hne
  | cons tag rest ih =>
    intro acc h hne
    rw [chooseTagsAux] at hne ⊢
    by_cases hc : (((joinSpace (acc ++ [tag])).length + 2 : Nat) : Int) ≤ avail
    · rw [if_pos hc] at hne ⊢
      exact ih (acc ++ [tag]) (fun _ => hc) hne
    · rw [if_neg hc] at hne ⊢
      exact h hne

theorem getD_allLe (mx : Nat) : ∀ (l : List Str) (i : Nat),
    (∀ t ∈ l, t.length ≤ mx) → (l.getD i []).length ≤ mx := by
  intro l
  induction l with
  | nil => intro i h; simp [List.getD]
  | cons x l ih =>
    intro i h
    cases i with
    | zero => simpa using h x (List.mem_cons_self x l)
    | succ j =>
      rw [List.getD_cons_succ]
      exact ih j (fun t ht => h t (List.mem_cons_of_mem _ ht))

theorem priorityPhase_allLe (hashtags : List Str) : ∀ (idxs : List Nat)
    (tws : List Str) (placed : Nat), (∀ t ∈ tws, t.length ≤ 280) →
    ∀ t ∈ (priorityPhase hashtags idxs (tws, placed)).1, t.length ≤ 280 := by
  intro idxs
  induction idxs with
  | nil => intro tws placed h; exact h
  | cons idx idxs ih =>
    intro tws placed h
    rw [priorityPhase]
    by_cases h1 : hashtags.length ≤ placed
    · rw [if_pos h1]; exact h
    · rw [if_neg h1]
      by_cases h2 : (chooseTagsAux ((280 : Int) - ((tws.getD idx []).length : Int))
          [] (hashtags.drop placed)).isEmpty
      · rw [if_pos h2]; exact ih tws placed h
      · rw [if_neg h2]
        apply ih
        intro t ht
        rcases List.mem_or_eq_of_mem_set ht with h3 | h3
        · exact h t h3
        · subst h3
          have hold : (tws.getD idx []).length ≤ 280 := getD_allLe 280 tws idx h
          have hb := chooseTagsAux_bound
            ((280 : Int) - ((tws.getD idx []).length : Int))
            (hashtags.drop placed) [] (fun hh => absurd rfl hh)
            (by simpa using h2)
          rw [List.length_append, List.length_cons]
          push_cast at hb
          omega

theorem priorityPhase_length (hashtags : List Str) : ∀ (idxs : List Nat)
    (tws : List Str) (placed : Nat),
    (priorityPhase hashtags idxs (tws, placed)).1.length = tws.length := by
  intro idxs
  induction idxs with
  | nil => intro tws placed; rfl
  | cons idx idxs ih =>
    intro tws placed
    rw [priorityPhase]
    by_cases h1 : hashtags.length ≤ placed
    · rw [if_pos h1]
    · rw [if_neg h1]
      by_cases h2 : (chooseTagsAux ((280 : Int) - ((tws.getD idx []).length : Int))
          [] (hashtags.drop placed)).isEmpty
      · rw [if_pos h2]; exact ih tws placed
      · rw [if_neg h2]
        rw [ih _ _, List.length_set]

theorem roundRobin_ok (rest : List Str) : ∀ (i : Nat) (tws : List Str),
    2 ≤ tws.length → (∀ t ∈ tws, t.length ≤ 280) →
    ∃ out, roundRobin i tws rest = Except.ok out ∧ ∀ t ∈ out, t.length ≤ 280 := by
  induction rest with
  | nil => intro i tws h2 hle; exact ⟨tws, rfl, hle⟩
  | cons tag rest' ih =>
    intro i tws h2 hle
    rw [roundRobin]
    rw [if_neg (by omega)]
    by_cases hfit : (tws.getD ((i + 1) % (tws.length - 1)) []).length + 1 +
        tag.length ≤ 280
    · rw [if_pos hfit]
      apply ih
      · rw [List.length_set]; exact h2
      · intro t ht
        rcases List.mem_or_eq_of_mem_set ht with h3 | h3
        · exact hle t h3
        · subst h3
          rw [List.length_append, List.length_cons]
          omega
    · rw [if_neg hfit]
      exact ih (i + 1) tws h2 hle

/-- C2 counterexample: with an over-long input tweet and an empty hashtag
list the distributor returns the tweet unchanged, so the claimed
"never exceeds 280 for any input combination" is false. -/
theorem add_hashtags_not_always_le_max :
    add_hashtags_to_thread [List.replicate 300 'a'] [] =
      Except.ok [List.replicate 300 'a'] ∧
    ¬ ((List.replicate 300 'a' : Str).length ≤ 280) :=
  ⟨rfl, by decide⟩

/-- C2 (amended): whenever every input tweet is at most 280 characters
and either the hashtag list is empty or the thread has at least two
tweets, `add_hashtags_to_thread` returns normally and every returned
tweet is at most 280 characters.  (The distributor only ever appends a
hashtag group after re-checking the 280 budget, and it never shortens an
input tweet; degenerate threads of fewer than two tweets can instead
raise `IndexError` or `ZeroDivisionError`.) -/
theorem add_hashtags_le_max (tweets hashtags : List Str)
    (hlen : ∀ t ∈ tweets, t.length ≤ 280)
    (hn : hashtags = [] ∨ 2 ≤ tweets.length) :
    ∃ out, add_hashtags_to_thread tweets hashtags = Except.ok out ∧
      ∀ t ∈ out, t.length ≤ 280 := by
  unfold add_hashtags_to_thread
  by_cases hh : hashtags.isEmpty
  · rw [if_pos hh]
    exact ⟨tweets, rfl, hlen⟩
  · rw [if_neg hh]
    have h2 : 2 ≤ tweets.length := by
      rcases hn with h | h
      · subst h; simp at hh
      · exact h
    obtain ⟨last, hlast⟩ : ∃ l, tweets.getLast? = some l := by
      cases hgl : tweets.getLast? with
      | none =>
        have : tweets = [] := List.getLast?_eq_none_iff.mp hgl
        subst this; simp at h2
      | some l => exact ⟨l, rfl⟩
    rw [hlast]
    show ∃ out, (if last.length + 2 + (joinSpace hashtags).length ≤ 280 then
        Except.ok (tweets.set (tweets.length - 1)
          (last ++ '\n' :: '\n' :: joinSpace hashtags))
      else
        roundRobin 0
          (priorityPhase hashtags [tweets.length - 1, 0] (tweets, 0)).1
          (hashtags.drop
            (priorityPhase hashtags [tweets.length - 1, 0] (tweets, 0)).2)) =
      Except.ok out ∧ ∀ t ∈ out, t.length ≤ 280
    by_cases hfit : last.length + 2 + (joinSpace hashtags).length ≤ 280
    · rw [if_pos hfit]
      refine ⟨_, rfl, ?_⟩
      intro t ht
      rcases List.mem_or_eq_of_mem_set ht with h3 | h3
      · exact hlen t h3
      · subst h3
        rw [List.length_append, List.length_cons, List.length_cons]
        omega
    · rw [if_neg hfit]
      have hp1 := priorityPhase_allLe hashtags [tweets.length - 1, 0] tweets 0 hlen
      have hp2 := priorityPhase_length hashtags [tweets.length - 1, 0] tweets 0
      exact roundRobin_ok _ 0 _ (by omega) hp1

/-- C2 witness: a concrete two-tweet thread with one hashtag satisfies
the hypotheses, returns normally, and stays within 280 characters. -/
theorem add_hashtags_le_max_witness :
    (∀ t ∈ ([("hello".toList), ("world".toList)] : List Str), t.length ≤ 280) ∧
    ∃ out, add_hashtags_to_thread [("hello".toList), ("world".toList)]
        [("#uav".toList)] = Except.ok out ∧ ∀ t ∈ out, t.length ≤ 280 :=
  ⟨by decide, add_hashtags_le_max _ _ (by decide) (Or.inr (by decide))⟩

set_option maxRecDepth 100000 in
/-- C8: evaluation of the code at the failing input.  Against the comment
`# Skip first and last` on the round-robin index, the leftover hashtag
`#b` is appended to the FIRST tweet: with three tweets of lengths
277/280/280 and hashtags `#a #b`, neither the last-tweet fast path nor
the priority phase places anything, and the round-robin pass at `i = 1`
computes `tweet_idx = 2 % 2 = 0` and appends ` #b` to tweet 0. -/
theorem roundrobin_leftover_lands_on_first_tweet :
    add_hashtags_to_thread
        [List.replicate 277 'a', List.replicate 280 'b', List.replicate 280 'c']
        [['#', 'a'], ['#', 'b']] =
      Except.ok
        [List.replicate 277 'a' ++ [' ', '#', 'b'],
         List.replicate 280 'b', List.replicate 280 'c'] := rfl

/-! ### C4: totality of the analysis and validation operations -/

/-- C4 counterexample: on the empty tweet list,
`analyze_engagement_potential` reaches `tweets[0]` and raises
`IndexError`, and `validate_thread` propagates it — the operations do not
"always return data, never raise". -/
theorem engagement_and_validation_raise_on_empty :
    analyze_engagement_potential [] = Except.error PyErr.indexError ∧
    validate_thread [] = Except.error PyErr.indexError :=
  ⟨rfl, rfl⟩

/-- C4 (amended): for every nonempty tweet list, both
`analyze_engagement_potential` and `validate_thread` return a report and
never raise; on the empty list both raise `IndexError`. -/
theorem engagement_and_validation_ok_on_nonempty (tweets : List Str)
    (h : tweets ≠ []) :
    (∃ rep, analyze_engagement_potential tweets = Except.ok rep) ∧
    ∃ r, validate_thread tweets = Except.ok r := by
  obtain ⟨t0, ts, rfl⟩ := List.exists_cons_of_ne_nil h
  exact ⟨⟨_, rfl⟩, ⟨_, rfl⟩⟩

/-- C4 witness: the singleton thread is accepted by both operations. -/
theorem engagement_and_validation_ok_witness :
    ([("drone".toList)] : List Str) ≠ [] ∧
    ((∃ rep, analyze_engagement_potential [("drone".toList)] = Except.ok rep) ∧
      ∃ r, validate_thread [("drone".toList)] = Except.ok r) :=
  ⟨by simp, engagement_and_validation_ok_on_nonempty _ (by simp)⟩

/-! ### C7: the similar-to-previous-tweet warning -/

theorem tweetChecks_sim_mem (i : Nat) (p t : Str)
    (h : (7 : ℚ) / 10 < _calculate_similarity t p) :
    TweetWarning.similarToPrevious i (_calculate_similarity t p) ∈
      (tweetChecks i (some p) t).2 := by
  have hmem : TweetWarning.similarToPrevious i (_calculate_similarity t p) ∈
      ((if 280 < t.length then ([] : List TweetWarning)
        else if t.length < 240 then []
        else if t.length < 250 then [TweetWarning.belowTarget i t.length]
        else if 275 < t.length then [TweetWarning.aboveTarget i t.length]
        else []) ++
       (if (7 : ℚ) / 10 < _calculate_similarity t p then
          [TweetWarning.similarToPrevious i (_calculate_similarity t p)]
        else [])) ++
      (if !droneKeywords.any (fun k => containsSub (lowerS t) k) then
         [TweetWarning.lacksDroneTerms i]
       else []) := by
    apply List.mem_append_left
    apply List.mem_append_right
    rw [if_pos h]
    exact List.mem_singleton.mpr rfl
  exact hmem

theorem validateLoop_sim_mem : ∀ (ts : List Str) (j i0 : Nat)
    (prev : Option Str) (hj2 : j + 1 < ts.length),
    (7 : ℚ) / 10 < _calculate_similarity (ts.get ⟨j + 1, hj2⟩)
      (ts.get ⟨j, by omega⟩) →
    TweetWarning.similarToPrevious (i0 + j + 1)
        (_calculate_similarity (ts.get ⟨j + 1, hj2⟩) (ts.get ⟨j, by omega⟩)) ∈
      (validateLoop i0 prev ts).2 := by
  intro ts
  induction ts with
  | nil => intro j i0 prev hj2; simp at hj2
  | cons t ts' ih =>
    intro j i0 prev hj2 hsim
    cases ts' with
    | nil =>
      simp only [List.length_cons, List.length_nil] at hj2
      omega
    | cons t1 rest =>
      cases j with
      | zero =>
        rw [validateLoop]
        apply List.mem_append_right
        rw [validateLoop]
        apply List.mem_append_left
        exact tweetChecks_sim_mem (i0 + 1) t t1 hsim
      | succ j' =>
        rw [validateLoop]
        apply List.mem_append_right
        have heq : i0 + (j' + 1) + 1 = (i0 + 1) + j' + 1 := by omega
        rw [heq]
        exact ih j' (i0 + 1) (some t) (by simpa using hj2) hsim

/-- C7: for every pair of consecutive tweets whose word-set Jaccard index
is at least `0.8` (in particular 80%-identical word sets),
`validate_thread` returns a report whose warnings contain the
similar-to-previous-tweet warning for that position, carrying the Jaccard
similarity that exceeded the `0.7` threshold. -/
theorem validate_warns_on_similar_consecutive (tweets : List Str) (j : Nat)
    (hj : j + 1 < tweets.length)
    (hsim : (4 : ℚ) / 5 ≤ _calculate_similarity (tweets.get ⟨j + 1, hj⟩)
      (tweets.get ⟨j, by omega⟩)) :
    ∃ r, validate_thread tweets = Except.ok r ∧
      TweetWarning.similarToPrevious (j + 2)
          (_calculate_similarity (tweets.get ⟨j + 1, hj⟩)
            (tweets.get ⟨j, by omega⟩)) ∈ r.warnings := by
  have hgt : (7 : ℚ) / 10 < _calculate_similarity (tweets.get ⟨j + 1, hj⟩)
      (tweets.get ⟨j, by omega⟩) := lt_of_lt_of_le (by norm_num) hsim
  cases tweets with
  | nil => simp at hj
  | cons t0 ts =>
    refine ⟨_, rfl, ?_⟩
    apply List.mem_append_left
    have := validateLoop_sim_mem (t0 :: ts) j 1 none hj hgt
    have heq : 1 + j + 1 = j + 2 := by omega
    rw [heq] at this
    exact this

/-- The similarity of a tweet with itself is 1 whenever it has at least
one word. -/
theorem sim_self (t : Str) (h : (pySplit (lowerS t)).toFinset ≠ ∅) :
    _calculate_similarity t t = 1 := by
  show (if (pySplit (lowerS t)).toFinset = ∅ ∨ (pySplit (lowerS t)).toFinset = ∅
      then (0 : ℚ)
    else if 0 < ((pySplit (lowerS t)).toFinset ∪ (pySplit (lowerS t)).toFinset).card
      then ((((pySplit (lowerS t)).toFinset ∩ (pySplit (lowerS t)).toFinset).card : ℚ) /
        ((((pySplit (lowerS t)).toFinset ∪ (pySplit (lowerS t)).toFinset).card : ℚ)))
    else 0) = 1
  rw [if_neg (by simp [h]), Finset.inter_self, Finset.union_self]
  have hpos : 0 < (pySplit (lowerS t)).toFinset.card :=
    Finset.card_pos.mpr (Finset.nonempty_iff_ne_empty.mpr h)
  rw [if_pos hpos]
  exact div_self (by exact_mod_cast Nat.pos_iff_ne_zero.mp hpos)

set_option maxRecDepth 4000 in
/-- C7 witness: two identical drone tweets have Jaccard similarity 1 and
the warning for tweet 2 is emitted. -/
theorem validate_warns_on_similar_witness :
    (1 < ([("drone tech is great".toList), ("drone tech is great".toList)] :
      List Str).length) ∧
    ∃ r, validate_thread
        [("drone tech is great".toList), ("drone tech is great".toList)] =
        Except.ok r ∧
      TweetWarning.similarToPrevious 2
          (_calculate_similarity
            (([("drone tech is great".toList), ("drone tech is great".toList)] :
              List Str).get ⟨1, by decide⟩)
            (([("drone tech is great".toList), ("drone tech is great".toList)] :
              List Str).get ⟨0, by decide⟩)) ∈ r.warnings :=
  ⟨by decide,
    validate_warns_on_similar_consecutive _ 0 (by decide) (by
      show (4 : ℚ) / 5 ≤ _calculate_similarity (("drone tech is great".toList))
        (("drone tech is great".toList))
      rw [sim_self _ (by decide)]
      norm_num)⟩

/-! ### C5: the short-content branch of `split_content` -/

/-- C5 counterexample: `split_content("")` returns `[""]`, a one-element
list, not the empty sequence; and a short non-empty input is returned
unmodified, not trimmed (`" a "` stays `" a "` although
`" a ".strip() = "a"`). -/
theorem split_content_short_counterexample :
    split_content [] 10 = [([] : Str)] ∧
    split_content ((" a ".toList)) 10 = [((" a ".toList))] ∧
    strip ((" a ".toList)) ≠ ((" a ".toList)) :=
  ⟨rfl, rfl, by decide⟩

/-- C5 (amended): for every content whose length is at most the effective
length (245 = 280 − 25 − 10), including the empty string,
`split_content` returns the one-element sequence `[content]` with the
input unmodified — not trimmed, and not the empty sequence for empty
input. -/
theorem split_content_short (content : Str)
    (h : content.length ≤ effective_length) :
    split_content content 10 = [content] := by
  unfold split_content
  rw [if_pos h]

/-- C5 witness: a concrete short content is returned as a single
unmodified chunk. -/
theorem split_content_short_witness :
    (("Drone inspection tips.".toList) : Str).length ≤ effective_length ∧
    split_content (("Drone inspection tips.".toList)) 10 =
      [(("Drone inspection tips.".toList) : Str)] :=
  ⟨by decide, split_content_short _ (by decide)⟩

end TwitterAgent
